import Mathlib

/-!
Verification development for a data-cleaning pipeline
(detection / correction / enrichment agents plus an orchestrating CLI loop).

The Python source is shallowly embedded:
a pandas DataFrame becomes a list of association-list rows sharing a column
list; scalar cells are null (NaN/None), strings, or exact rationals
(floats are modelled exactly; no claim depends on float rounding);
the external generative service consumed by the enrichment agent is an
oracle argument (none models a transport error, some s a raw response).
Python string primitives (strip, title, lower, str.split) are modelled on
ASCII data, which covers every vocabulary entry and every input used below.
Log strings are abstracted to structured constructors carrying the same
payload; no claim depends on the exact log text.
-/

set_option maxRecDepth 100000
set_option maxHeartbeats 1000000

namespace DataClean

/-- Model of a scalar cell of the dataset: NaN/None, a string, or a number
(ints and floats are both embedded into the rationals). -/
inductive Cell where
  | null : Cell
  | str (s : String) : Cell
  | num (q : ℚ) : Cell
deriving DecidableEq

/-- Model of one record: an association list from column name to cell,
mirroring one row of a pandas DataFrame. -/
abbrev Row := List (String × Cell)

/-- Model of a pandas DataFrame: the column list plus the rows. -/
structure DataFrame where
  cols : List String
  rows : List Row
deriving DecidableEq

/-- Wellformedness of a DataFrame: every row has exactly the schema columns,
in order, as pandas guarantees for rectangular frames. -/
def WF (df : DataFrame) : Prop :=
  ∀ r ∈ df.rows, r.map Prod.fst = df.cols

instance (df : DataFrame) : Decidable (WF df) := by
  unfold WF; infer_instance

/-- Python chr classification: ASCII space characters recognised by str.strip
and str.split. -/
def pySpace (c : Char) : Bool :=
  c.toNat = 32 || c.toNat = 9 || c.toNat = 10 || c.toNat = 13 ||
    c.toNat = 11 || c.toNat = 12

/-- ASCII uppercase letter test. -/
def isUpperA (c : Char) : Bool := 65 ≤ c.toNat && c.toNat ≤ 90

/-- ASCII lowercase letter test. -/
def isLowerA (c : Char) : Bool := 97 ≤ c.toNat && c.toNat ≤ 122

/-- ASCII letter test, the cased-character test used by str.title. -/
def isAlphaA (c : Char) : Bool := isUpperA c || isLowerA c

/-- ASCII digit test, the class matched by the regex d used on phones. -/
def isDigitA (c : Char) : Bool := 48 ≤ c.toNat && c.toNat ≤ 57

/-- Python ord-arithmetic lowercase conversion (ASCII). -/
def pyToLower (c : Char) : Char :=
  if h : 65 ≤ c.toNat ∧ c.toNat ≤ 90 then
    ⟨UInt32.ofNat (c.toNat + 32), by
      have hm : (UInt32.ofNat (c.toNat + 32)).toNat = (c.toNat + 32) % 4294967296 := rfl
      refine Or.inl ?_
      omega⟩
  else c

/-- Python ord-arithmetic uppercase conversion (ASCII). -/
def pyToUpper (c : Char) : Char :=
  if h : 97 ≤ c.toNat ∧ c.toNat ≤ 122 then
    ⟨UInt32.ofNat (c.toNat - 32), by
      have hm : (UInt32.ofNat (c.toNat - 32)).toNat = (c.toNat - 32) % 4294967296 := rfl
      refine Or.inl ?_
      omega⟩
  else c

/-- Strip of leading space characters, one side of Python str.strip. -/
def stripLeft (l : List Char) : List Char := l.dropWhile pySpace

/-- Model of Python str.strip on a character list: drop space characters from
both ends. -/
def stripL (l : List Char) : List Char :=
  ((stripLeft l).reverse.dropWhile pySpace).reverse

/-- State-passing core of Python str.title: a character after a cased (alpha)
character is lowercased, any other character is uppercased. -/
def titleAux : Bool → List Char → List Char
  | _, [] => []
  | prev, c :: cs =>
    (if prev then pyToLower c else pyToUpper c) :: titleAux (isAlphaA c) cs

/-- Model of Python str.title on a character list. -/
def titleL (l : List Char) : List Char := titleAux false l

/-- Cased-state of the title fold after processing a character list: the
alpha-ness of the last character, or the starting state for an empty list.
Used only to reason about titleAux. -/
def titleState (p : Bool) (l : List Char) : Bool :=
  match l.getLast? with
  | some c => isAlphaA c
  | none => p

/-- Model of Python str.strip on strings. -/
def pyStrip (s : String) : String := String.mk (stripL s.data)

/-- Model of Python str.title on strings. -/
def pyTitle (s : String) : String := String.mk (titleL s.data)

/-- Model of Python str.lower on strings (ASCII). -/
def pyLower (s : String) : String := String.mk (s.data.map pyToLower)

/-- Model of str(x) / pandas astype(str) on a cell. NaN prints as nan;
an integral number prints without a decimal point. The float repr of a
non-integral rational is approximated by the Rat repr; no claim below
ever stringifies a non-integral number. -/
def cellToStr : Cell → String
  | Cell.null => "nan"
  | Cell.str s => s
  | Cell.num q => if q.den = 1 then toString q.num else toString q

/-- Test for the null cell (pd.isnull). -/
def isNullCell : Cell → Bool
  | Cell.null => true
  | _ => false

/-- Rewrite the value of the first entry of a row carrying the given column
name, the row-level effect of assigning a pandas column. -/
def updateFirst (k : String) (f : Cell → Cell) : Row → Row
  | [] => []
  | (c, v) :: r => if c = k then (c, f v) :: r else (c, v) :: updateFirst k f r

/-- Read the cell of a row at a column name; missing columns read as null. -/
def rowVal (r : Row) (c : String) : Cell :=
  match r.find? (fun p => p.1 = c) with
  | some p => p.2
  | none => Cell.null

/-- Whether a row carries an entry for a column name. -/
def hasKey (r : Row) (c : String) : Bool :=
  (r.find? (fun p => p.1 = c)).isSome

/-- Apply a cell function to one named column of every row, the model of a
pandas column assignment from an apply / string method chain. -/
def mapCol (df : DataFrame) (k : String) (f : Cell → Cell) : DataFrame :=
  { df with rows := df.rows.map (updateFirst k f) }

/-- Presence-guarded column rewrite, the shape every correction step has:
if the column is absent the step is skipped entirely. -/
def colStep (df : DataFrame) (k : String) (f : Cell → Cell) : DataFrame :=
  if k ∈ df.cols then mapCol df k f else df

/-- Assign a full column of values: overwrite in place when the column
exists, append it at the end of the schema otherwise, as pandas does. -/
def setCol (df : DataFrame) (k : String) (vals : List Cell) : DataFrame :=
  if k ∈ df.cols then
    { df with rows := List.zipWith (fun r v => updateFirst k (fun _ => v) r) df.rows vals }
  else
    { cols := df.cols ++ [k],
      rows := List.zipWith (fun r v => r ++ [(k, v)]) df.rows vals }

/-- Values of one column across all rows, in row order. -/
def colVals (df : DataFrame) (c : String) : List Cell :=
  df.rows.map (fun r => rowVal r c)

/-- Canonical country vocabulary of the correction agent (identical list in
the detection agent). -/
def CANONICAL_COUNTRIES : List String := [
  "United States", "India", "Canada", "United Kingdom", "Australia", "Germany",
  "France", "Japan", "China", "Brazil", "South Korea",
  "Italy", "Spain", "Mexico", "Russia", "Netherlands", "Sweden", "Norway",
  "Denmark", "Finland", "Switzerland", "Austria",
  "Belgium", "Ireland", "New Zealand", "Singapore", "Malaysia", "Thailand",
  "Indonesia", "Turkey", "Saudi Arabia", "UAE",
  "South Africa", "Egypt", "Argentina", "Chile", "Colombia", "Peru", "Poland",
  "Portugal", "Greece", "Czech Republic",
  "Hungary", "Romania", "Slovakia", "Slovenia", "Croatia", "Estonia", "Latvia",
  "Lithuania", "Philippines", "Vietnam",
  "Pakistan", "Bangladesh", "Sri Lanka", "Nepal", "Israel", "Qatar", "Kuwait",
  "Oman", "Morocco", "Kenya", "Nigeria",
  "Ghana", "Venezuela", "Ecuador", "Uruguay", "Paraguay", "Bolivia",
  "Costa Rica", "Panama", "Guatemala", "Honduras",
  "El Salvador", "Dominican Republic", "Cuba", "Jamaica",
  "Trinidad and Tobago", "Iceland", "Luxembourg", "Liechtenstein",
  "Monaco", "Andorra", "San Marino", "Malta", "Cyprus", "Bahrain", "Jordan",
  "Lebanon", "Syria", "Iraq", "Iran", "Afghanistan",
  "Uzbekistan", "Kazakhstan", "Azerbaijan", "Georgia", "Armenia", "Mongolia",
  "Cambodia", "Laos", "Myanmar", "Brunei", "Timor-Leste"]

/-- Canonical city vocabulary of the correction agent. -/
def CANONICAL_CITIES : List String := [
  "Springfield", "Seattle", "Miami Beach", "San Francisco", "Bludhaven",
  "Hub City", "Metropolis", "Opal City", "Gateway City",
  "Houston", "Central City", "Bellevue", "Riverside", "New York", "Gotham",
  "Coast City", "Los Angeles", "Star City", "Miami",
  "National City", "Mumbai", "Newark", "Dallas", "Unknown"]

/-- Valid gender values. -/
def GENDERS : List String := ["Male", "Female", "Other"]

/-- Valid marital status values. -/
def MARITAL_STATUSES : List String := ["Single", "Married", "Divorced", "Widowed"]

/-- Code-point lexicographic comparison of character lists, the order
Python uses to compare strings. -/
def lexLe : List Char → List Char → Bool
  | [], _ => true
  | _ :: _, [] => false
  | x :: xs, y :: ys =>
    if x.toNat < y.toNat then true
    else if y.toNat < x.toNat then false
    else lexLe xs ys

/-- Stable insertion of a string into a sorted list, placing the new element
after equal ones, as Python sorted does. -/
def insertLe (x : String) : List String → List String
  | [] => [x]
  | y :: l => if lexLe y.data x.data then y :: insertLe x l else x :: y :: l

/-- Insertion sort on strings by code-point order, the order Python sorted
uses on strings. -/
def sortStrings : List String → List String
  | [] => []
  | x :: l => insertLe x (sortStrings l)

/-- Python str.split with no separator: split on runs of whitespace,
discarding empty tokens. -/
def pySplitAux : List Char → List Char → List String
  | [], acc => if acc = [] then [] else [String.mk acc.reverse]
  | c :: cs, acc =>
    if pySpace c then
      if acc = [] then pySplitAux cs []
      else String.mk acc.reverse :: pySplitAux cs []
    else pySplitAux cs (c :: acc)

/-- Tokenisation used by rapidfuzz token_sort_ratio: whitespace split,
code-point sort, single-space join. -/
def tokenSort (s : String) : String :=
  String.intercalate " " (sortStrings (pySplitAux s.data []))

/-- One inner step of the longest-common-subsequence dynamic program:
given the previous row (without its leading zero cell consumed so far),
the diagonal handling is encoded by reading head and tail of prev. -/
def lcsRowGo (c : Char) : List Char → List Nat → Nat → List Nat
  | [], _, _ => []
  | bj :: bs, prev, nj =>
    let pj := prev.headD 0
    let pj1 := prev.tail.headD 0
    let nj1 := if c = bj then pj + 1 else max pj1 nj
    nj1 :: lcsRowGo c bs prev.tail nj1

/-- Next full row of the LCS dynamic program (keeps the leading zero). -/
def lcsRow (c : Char) (b : List Char) (prev : List Nat) : List Nat :=
  0 :: lcsRowGo c b prev 0

/-- Length of the longest common subsequence of two character lists, used to
express the rapidfuzz Indel similarity. -/
def lcs (a b : List Char) : Nat :=
  (a.foldl (fun prev c => lcsRow c b prev) (List.replicate (b.length + 1) 0)).getLastD 0

/-- Model of rapidfuzz fuzz.ratio, the normalized Indel similarity as a
percentage: the Indel distance of a and b is len a + len b - 2 lcs, so the
similarity is 100 (2 lcs) / (len a + len b). The exact value is kept as an
unreduced numerator-denominator pair with positive denominator, compared
later by cross multiplication, which orders scores exactly as the float
percentages of rapidfuzz do. Two empty strings score 100. -/
def fuzzRatio (a b : String) : Nat × Nat :=
  let la := a.data.length
  let lb := b.data.length
  if la + lb = 0 then (100, 1) else (100 * (2 * lcs a.data b.data), la + lb)

/-- Strict comparison of two score fractions with positive denominators. -/
def fracGt (p q : Nat × Nat) : Bool := q.2 * p.1 > p.2 * q.1

/-- Model of rapidfuzz fuzz.token_sort_ratio with no processor: compare the
token-sorted forms with fuzz.ratio. -/
def token_sort_ratio (a b : String) : Nat × Nat :=
  fuzzRatio (tokenSort a) (tokenSort b)

/-- Scanning core of rapidfuzz process.extractOne: keep the first choice
attaining the running maximum, replacing only on strictly greater score. -/
def extractGo (q : String) (best : String × (Nat × Nat)) :
    List String → String × (Nat × Nat)
  | [] => best
  | c :: cs =>
    let s := token_sort_ratio q c
    extractGo q (if fracGt s best.2 then (c, s) else best) cs

/-- Model of rapidfuzz process.extractOne with scorer token_sort_ratio:
the best-scoring choice together with its score (ties keep the earliest). -/
def extractOne (q : String) : List String → Option (String × (Nat × Nat))
  | [] => none
  | c :: cs => some (extractGo q (c, token_sort_ratio q c) cs)

/-- Model of match_country from the correction agent: strip and title-case
the value; null, empty and Unknown map to Unknown; an exact vocabulary hit
passes through; otherwise fuzzy-match and accept only a score above 70. -/
def match_country (val : Cell) : String :=
  let val_clean := pyTitle (pyStrip (cellToStr val))
  if isNullCell val || val_clean = "" || val_clean = "Unknown" then "Unknown"
  else if val_clean ∈ CANONICAL_COUNTRIES then val_clean
  else
    match extractOne val_clean CANONICAL_COUNTRIES with
    | some (m, score) => if fracGt score (70, 1) then m else "Unknown"
    | none => "Unknown"

/-- Model of match_city from the correction agent, identical to
match_country except for the vocabulary and the threshold 40. -/
def match_city (val : Cell) : String :=
  let val_clean := pyTitle (pyStrip (cellToStr val))
  if isNullCell val || val_clean = "" || val_clean = "Unknown" then "Unknown"
  else if val_clean ∈ CANONICAL_CITIES then val_clean
  else
    match extractOne val_clean CANONICAL_CITIES with
    | some (m, score) => if fracGt score (40, 1) then m else "Unknown"
    | none => "Unknown"

/-- Name columns standardized by the first correction step. -/
def NAME_COLUMNS : List String := ["first_name", "last_name", "full_name"]

/-- String-level effect of the name standardization step: title, strip,
then replace Nan, nan and empty by Unknown. -/
def nameCleanStr (s : String) : String :=
  let u := pyStrip (pyTitle s)
  if u = "Nan" ∨ u = "nan" ∨ u = "" then "Unknown" else u

/-- Per-cell effect of the name standardization step: astype(str), title,
strip, then replace Nan, nan, empty (and None, already astype-folded into
nan) by Unknown. -/
def name_clean (c : Cell) : Cell :=
  Cell.str (nameCleanStr (cellToStr c))

/-- Name standardization over all present name columns, in source order. -/
def nameStd (df : DataFrame) : DataFrame :=
  NAME_COLUMNS.foldl (fun d col => colStep d col name_clean) df

/-- Core of drop_duplicates with keep=first: keep each fully identical row
only at its first occurrence, preserving order. -/
def dedupAux : List Row → List Row → List Row
  | _, [] => []
  | seen, r :: rs =>
    if r ∈ seen then dedupAux seen rs else r :: dedupAux (r :: seen) rs

/-- Model of df.drop_duplicates(keep=first). -/
def drop_duplicates (df : DataFrame) : DataFrame :=
  { df with rows := dedupAux [] df.rows }

/-- Country normalization step of the correction agent. -/
def countryFix (df : DataFrame) : DataFrame :=
  colStep df "country" (fun c => Cell.str (match_country c))

/-- Age implausibility test of the correction step: null, non-numeric,
non-positive, or above 120 ages get replaced. -/
def age_out_of_range : Cell → Bool
  | Cell.num q => decide (q ≤ 0) || decide (120 < q)
  | _ => true

/-- Plausible-age pool the correction agent computes the median over:
numeric ages strictly between 0 and 120 (the source filter is 0 < x < 120,
exclusive at both ends). -/
def agePool (df : DataFrame) : List ℚ :=
  (colVals df "age").filterMap fun c =>
    match c with
    | Cell.num q => if 0 < q ∧ q < 120 then some q else none
    | _ => none

/-- Stable insertion of a rational into a sorted list. -/
def insertQ (x : ℚ) : List ℚ → List ℚ
  | [] => [x]
  | y :: l => if y ≤ x then y :: insertQ x l else x :: y :: l

/-- Insertion sort on rationals, ascending. -/
def sortQ : List ℚ → List ℚ
  | [] => []
  | x :: l => insertQ x (sortQ l)

/-- Model of pandas Series.median: none on an empty pool (NaN in pandas),
the middle sorted element for odd length, the mean of the two middle sorted
elements for even length. -/
def pandasMedian (l : List ℚ) : Option ℚ :=
  if l.length = 0 then none
  else
    let s := sortQ l
    if l.length % 2 = 1 then some (s.getD (l.length / 2) 0)
    else some ((s.getD (l.length / 2 - 1) 0 + s.getD (l.length / 2) 0) / 2)

/-- Replacement cell for implausible ages: the pool median, or NaN when the
pool is empty (the pandas median of an empty series is NaN). -/
def ageMedianCell (df : DataFrame) : Cell :=
  match pandasMedian (agePool df) with
  | some m => Cell.num m
  | none => Cell.null

/-- Age correction step: replace implausible ages by the pool median. -/
def ageFix (df : DataFrame) : DataFrame :=
  colStep df "age" (fun c => if age_out_of_range c then ageMedianCell df else c)

/-- Per-cell loyalty-points correction: null, non-numeric and negative
values become 0, everything else is kept. -/
def loyalty_clean : Cell → Cell
  | Cell.num q => if q < 0 then Cell.num 0 else Cell.num q
  | _ => Cell.num 0

/-- Loyalty-points correction step. -/
def loyaltyFix (df : DataFrame) : DataFrame :=
  colStep df "loyalty_points" loyalty_clean

/-- Per-cell gender correction: anything outside the valid set becomes
Other (membership of a non-string cell in a list of strings is false). -/
def gender_clean : Cell → Cell
  | Cell.str s => if s ∈ GENDERS then Cell.str s else Cell.str "Other"
  | _ => Cell.str "Other"

/-- Gender correction step. -/
def genderFix (df : DataFrame) : DataFrame :=
  colStep df "gender" gender_clean

/-- Per-cell marital-status correction with default Single. -/
def marital_clean : Cell → Cell
  | Cell.str s => if s ∈ MARITAL_STATUSES then Cell.str s else Cell.str "Single"
  | _ => Cell.str "Single"

/-- Marital-status correction step. -/
def maritalFix (df : DataFrame) : DataFrame :=
  colStep df "marital_status" marital_clean

/-- Left pad with zeros to width 8, the pandas str.pad(8, fillchar=0)
default left side. -/
def padTo8 (l : List Char) : List Char :=
  if l.length < 8 then List.replicate (8 - l.length) '0' ++ l else l

/-- Phone formatting applied when at least 8 characters remain: the slice
x[-8:-4], a hyphen, then x[-4:]. -/
def phoneFmt (l : List Char) : String :=
  let last8 := l.drop (l.length - 8)
  String.mk (last8.take 4 ++ '-' :: last8.drop 4)

/-- Per-cell phone correction: astype(str), keep digits only, left-pad to 8
with zeros, then format the last 8 digits as DDDD-DDDD; the source falls
back to the sentinel 0000-0000 if fewer than 8 characters remain. -/
def phone_clean (c : Cell) : Cell :=
  let d := padTo8 ((cellToStr c).data.filter isDigitA)
  Cell.str (if 8 ≤ d.length then phoneFmt d else "0000-0000")

/-- Phone correction step. -/
def phoneFix (df : DataFrame) : DataFrame :=
  colStep df "phone" phone_clean

/-- City normalization step. -/
def cityFix (df : DataFrame) : DataFrame :=
  colStep df "city" (fun c => Cell.str (match_city c))

/-- Final correction step: drop the issues column when present (pandas
df.drop removes every column with that label). -/
def dropIssues (df : DataFrame) : DataFrame :=
  if "issues" ∈ df.cols then
    { cols := df.cols.filter (fun c => c ≠ "issues"),
      rows := df.rows.map (fun r => r.filter (fun p => p.1 ≠ "issues")) }
  else df

/-- Intermediate dataset right before the country step. -/
def preCountry (df : DataFrame) : DataFrame := drop_duplicates (nameStd df)

/-- Intermediate dataset right before the age step. -/
def preAge (df : DataFrame) : DataFrame := countryFix (preCountry df)

/-- Intermediate dataset right before the phone step. -/
def prePhone (df : DataFrame) : DataFrame :=
  maritalFix (genderFix (loyaltyFix (ageFix (preAge df))))

/-- Model of correct_issues from the correction agent: the fixed sequence
of per-column repairs. The correction log the source also returns is not
modelled; no claim depends on it. -/
def correct_issues (df : DataFrame) : DataFrame :=
  dropIssues (cityFix (phoneFix (prePhone df)))

/-- Word character of the regex class w (ASCII). -/
def wordChar (c : Char) : Bool := isAlphaA c || isDigitA c || c = '_'

/-- Character class of the bracket expression matching word characters,
dots and hyphens in the email regex. -/
def wordDotDash (c : Char) : Bool := wordChar c || c = '.' || c = '-'

/-- Decision procedure for the detection email regex: one nonempty local
part of word, dot and hyphen characters, a single at sign, and a domain of
the same class that ends in a dot followed by a nonempty word-character
run (equivalently, the part after the last dot is nonempty word characters
and something nonempty precedes that dot). -/
def emailOk (s : String) : Bool :=
  match s.data.splitOn '@' with
  | [l, domain] =>
    let parts := domain.splitOn '.'
    let tld := parts.getLastD []
    decide (l ≠ []) && l.all wordDotDash && domain.all wordDotDash &&
      decide (2 ≤ parts.length) && decide (tld ≠ []) && tld.all wordChar &&
      decide (tld.length + 2 ≤ domain.length)
  | _ => false

/-- Decision procedure for the detection phone regex: three or four digits,
a hyphen, then exactly four digits. -/
def phoneOk (s : String) : Bool :=
  let l := s.data
  (decide (l.length = 8) && (l.take 3).all isDigitA && decide (l.getD 3 ' ' = '-')
      && (l.drop 4).all isDigitA) ||
  (decide (l.length = 9) && (l.take 4).all isDigitA && decide (l.getD 4 ' ' = '-')
      && (l.drop 5).all isDigitA)

/-- Email issue mask of the detection agent: fails the regex after
astype(str), or is null, or is blank after strip. -/
def email_invalid (c : Cell) : Bool :=
  !emailOk (cellToStr c) || isNullCell c || pyStrip (cellToStr c) = ""

/-- Gender issue mask: not a member of the valid genders (a null or numeric
cell is never a member). -/
def gender_invalid : Cell → Bool
  | Cell.str s => !(s ∈ GENDERS : Bool)
  | _ => true

/-- Marital status issue mask. -/
def marital_invalid : Cell → Bool
  | Cell.str s => !(s ∈ MARITAL_STATUSES : Bool)
  | _ => true

/-- Age issue mask of the detection agent: null, or numeric and outside
(0, 120]; note that non-numeric strings are not flagged by detection. -/
def age_invalid : Cell → Bool
  | Cell.null => true
  | Cell.num q => decide (q ≤ 0) || decide (120 < q)
  | Cell.str _ => false

/-- Loyalty points issue mask: null, or numeric and negative. -/
def loyalty_invalid : Cell → Bool
  | Cell.null => true
  | Cell.num q => decide (q < 0)
  | Cell.str _ => false

/-- Country issue mask: not exactly a vocabulary member. -/
def country_noncanon : Cell → Bool
  | Cell.str s => !(s ∈ CANONICAL_COUNTRIES : Bool)
  | _ => true

/-- Empty-name issue mask: null, blank after strip, or the literal nan in
any letter case. -/
def name_empty (c : Cell) : Bool :=
  isNullCell c || pyStrip (cellToStr c) = "" || pyLower (cellToStr c) = "nan"

/-- Issue tags the detection agent computes for one row, one entry per rule
executed, in source order; a rule that does not fire contributes the empty
string, a rule whose column is absent contributes nothing. The duplicate
rule (marking every row whose full content occurs at least twice) always
runs. -/
def rowTags (df : DataFrame) (r : Row) : List String :=
  (if "email" ∈ df.cols then
    [if email_invalid (rowVal r "email") then "Invalid Email" else ""] else []) ++
  (if "phone" ∈ df.cols then
    [if !phoneOk (cellToStr (rowVal r "phone")) then "Invalid Phone" else ""] else []) ++
  (if "gender" ∈ df.cols then
    [if gender_invalid (rowVal r "gender") then "Invalid Gender" else ""] else []) ++
  (if "marital_status" ∈ df.cols then
    [if marital_invalid (rowVal r "marital_status") then "Invalid Marital Status" else ""] else []) ++
  (if "age" ∈ df.cols then
    [if age_invalid (rowVal r "age") then "Invalid Age" else ""] else []) ++
  (if "loyalty_points" ∈ df.cols then
    [if loyalty_invalid (rowVal r "loyalty_points") then "Invalid Loyalty Points" else ""] else []) ++
  (if "country" ∈ df.cols then
    [if country_noncanon (rowVal r "country") then "Non-canonical Country" else ""] else []) ++
  [if 2 ≤ df.rows.count r then "Duplicate" else ""] ++
  ((NAME_COLUMNS.filter (fun col => col ∈ df.cols)).map
    (fun col => if name_empty (rowVal r col) then "Empty " ++ col else ""))

/-- Combined issues text of one row: the nonempty tags joined by a comma
and space. -/
def issuesStr (df : DataFrame) (r : Row) : String :=
  String.intercalate ", " ((rowTags df r).filter (fun t => t ≠ ""))

/-- Model of detect_issues from the detection agent: recompute the issues
column from all rules. The rule list is nonempty for every frame because
the duplicate rule is unconditional, so the issues column is always
rewritten; the source branch dropping a stale issues column when no rule
ran is kept for structural faithfulness though it is unreachable. The
detection log the source also returns is not modelled. -/
def detect_issues (df : DataFrame) : DataFrame :=
  if (rowTags df []).length ≠ 0 then
    setCol df "issues" (df.rows.map (fun r => Cell.str (issuesStr df r)))
  else dropIssues df

/-- Model of needs_correction from the CLI: some issues cell is nonblank
after astype(str) and strip. -/
def needs_correction (df : DataFrame) : Bool :=
  if "issues" ∈ df.cols then
    df.rows.any (fun r => pyStrip (cellToStr (rowVal r "issues")) ≠ "")
  else false

/-- Missing-like test of the CLI and the enrichment change log: blank,
missing, unknown or nan after astype(str), strip and lower. -/
def missingLike (c : Cell) : Bool :=
  pyLower (pyStrip (cellToStr c)) ∈ (["missing", "unknown", "nan", ""] : List String)

/-- Model of needs_enrichment from the CLI: some non-issues column holds a
null or a missing-like value. -/
def needs_enrichment (df : DataFrame) : Bool :=
  df.cols.any (fun c =>
    c ≠ "issues" &&
      df.rows.any (fun r => isNullCell (rowVal r c) || missingLike (rowVal r c)))

/-- Structured stand-ins for the enrichment log strings; the payloads carry
the data the source interpolates into its f-strings. -/
inductive ELog where
  | colChange (col : String) (changes : List (Nat × Cell × Cell)) : ELog
  | newCol (col : String) (vals : List (Nat × Cell)) : ELog
  | enrichedAll : ELog
  | parseError : ELog
deriving DecidableEq

/-- Model of Python str.splitlines: break on line feeds, carriage returns
and CRLF pairs, with no empty final line for a trailing terminator. -/
def splitLinesAux : List Char → List Char → List String
  | [], acc => if acc = [] then [] else [String.mk acc.reverse]
  | '\r' :: '\n' :: cs, acc => String.mk acc.reverse :: splitLinesAux cs []
  | c :: cs, acc =>
    if c = '\n' || c = '\r' then String.mk acc.reverse :: splitLinesAux cs []
    else splitLinesAux cs (c :: acc)

/-- Model of Python str.splitlines on strings. -/
def splitLines (s : String) : List String := splitLinesAux s.data []

/-- States of the csv-dialect field scanner (delimiter comma, quote char
double quote, doubled quotes inside a quoted field). -/
inductive CsvSt where
  | fieldStart : CsvSt
  | unquoted : CsvSt
  | quoted : CsvSt
  | afterQuote : CsvSt

/-- Count the top-level commas of one csv line. -/
def csvCountAux : CsvSt → List Char → Nat → Nat
  | _, [], n => n
  | CsvSt.fieldStart, c :: cs, n =>
    if c = '"' then csvCountAux CsvSt.quoted cs n
    else if c = ',' then csvCountAux CsvSt.fieldStart cs (n + 1)
    else csvCountAux CsvSt.unquoted cs n
  | CsvSt.unquoted, c :: cs, n =>
    if c = ',' then csvCountAux CsvSt.fieldStart cs (n + 1)
    else csvCountAux CsvSt.unquoted cs n
  | CsvSt.quoted, c :: cs, n =>
    if c = '"' then csvCountAux CsvSt.afterQuote cs n
    else csvCountAux CsvSt.quoted cs n
  | CsvSt.afterQuote, c :: cs, n =>
    if c = '"' then csvCountAux CsvSt.quoted cs n
    else if c = ',' then csvCountAux CsvSt.fieldStart cs (n + 1)
    else csvCountAux CsvSt.unquoted cs n

/-- Field count of one line as the csv reader sees it; none models the
IndexError the source comprehension hits on an empty line (the reader
yields no row there). -/
def csvFieldCount (line : String) : Option Nat :=
  if line = "" then none else some (csvCountAux CsvSt.fieldStart line.data 0 + 1)

/-- Split one csv line into unquoted field texts. -/
def csvFieldsAux : CsvSt → List Char → List Char → List String → List String
  | _, [], acc, out => (String.mk acc.reverse :: out).reverse
  | CsvSt.fieldStart, c :: cs, acc, out =>
    if c = '"' then csvFieldsAux CsvSt.quoted cs acc out
    else if c = ',' then csvFieldsAux CsvSt.fieldStart cs [] (String.mk acc.reverse :: out)
    else csvFieldsAux CsvSt.unquoted cs (c :: acc) out
  | CsvSt.unquoted, c :: cs, acc, out =>
    if c = ',' then csvFieldsAux CsvSt.fieldStart cs [] (String.mk acc.reverse :: out)
    else csvFieldsAux CsvSt.unquoted cs (c :: acc) out
  | CsvSt.quoted, c :: cs, acc, out =>
    if c = '"' then csvFieldsAux CsvSt.afterQuote cs acc out
    else csvFieldsAux CsvSt.quoted cs (c :: acc) out
  | CsvSt.afterQuote, c :: cs, acc, out =>
    if c = '"' then csvFieldsAux CsvSt.quoted cs ('"' :: acc) out
    else if c = ',' then csvFieldsAux CsvSt.fieldStart cs [] (String.mk acc.reverse :: out)
    else csvFieldsAux CsvSt.unquoted cs (c :: acc) out

/-- Fields of one csv line. -/
def csvFields (line : String) : List String :=
  csvFieldsAux CsvSt.fieldStart line.data [] []

/-- Not-available strings pandas read_csv turns into NaN. -/
def NA_STRINGS : List String :=
  ["", "nan", "NaN", "NULL", "null", "N/A", "n/a", "NA"]

/-- Natural number value of a digit run. -/
def natOfDigits (l : List Char) : Nat :=
  l.foldl (fun n c => 10 * n + (c.toNat - 48)) 0

/-- Integer literal recogniser for read_csv type inference. -/
def parseIntLit (l : List Char) : Option Int :=
  match l with
  | '-' :: rest =>
    if rest ≠ [] ∧ rest.all isDigitA then some (-(natOfDigits rest : Int)) else none
  | _ => if l ≠ [] ∧ l.all isDigitA then some (natOfDigits l : Int) else none

/-- Float literal recogniser (digits, one dot, digits) for read_csv type
inference; the value is exact as a rational. -/
def parseFloatLit (l : List Char) : Option ℚ :=
  let core := fun (m : List Char) (sign : ℚ) =>
    match m.splitOn '.' with
    | [ip, fp] =>
      if (ip ≠ [] ∨ fp ≠ []) ∧ ip.all isDigitA ∧ fp.all isDigitA then
        some (sign * ((natOfDigits ip : ℚ) + (natOfDigits fp : ℚ) / (10 : ℚ) ^ fp.length))
      else none
    | _ => none
  match l with
  | '-' :: rest => core rest (-1)
  | _ => core l 1

/-- Type inference of read_csv on one field. -/
def inferCell (f : String) : Cell :=
  if f ∈ NA_STRINGS then Cell.null
  else
    match parseIntLit f.data with
    | some n => Cell.num (n : ℚ)
    | none =>
      match parseFloatLit f.data with
      | some q => Cell.num q
      | none => Cell.str f

/-- Model of pd.read_csv over the filtered response lines: the first line
is the header, the remaining lines are rows (the escapechar option of the
source is not exercised by any input considered here). -/
def parseCSVTable (lines : List String) : DataFrame :=
  match lines with
  | [] => ⟨[], []⟩
  | h :: rest =>
    let cols := csvFields h
    ⟨cols, rest.map (fun ln => cols.zip ((csvFields ln).map inferCell))⟩

/-- Model of the code-fence removal regex: a fence opener at the start of
the response is removed together with the following whitespace, and a
triple backtick run closing any line is removed. Interior multiline fence
openers are not modelled; no input considered here contains one. The
backtick characters are written by code point (96) so the model works on
plain character lists. -/
def stripFences (s : String) : String :=
  let fenceOpen : List Char := [Char.ofNat 96, Char.ofNat 96, Char.ofNat 96, 'c', 's', 'v']
  let fenceClose : List Char := [Char.ofNat 96, Char.ofNat 96, Char.ofNat 96]
  let s1 := if fenceOpen.isPrefixOf s.data then
      String.mk ((s.data.drop 6).dropWhile pySpace)
    else s
  String.intercalate "\n"
    ((splitLines s1).map (fun l =>
      if fenceClose.reverse.isPrefixOf l.data.reverse then
        String.mk (l.data.take (l.data.length - 3))
      else l))

/-- Change log entries for columns shared by the input and the parsed
response: cells that went from missing-like to concrete, with indices. -/
def colChangeLogs (df enr : DataFrame) : List ELog :=
  (df.cols.filter (fun c => c ∈ enr.cols)).filterMap fun col =>
    let ch := ((colVals df col).zip (colVals enr col)).enum.filterMap
      (fun p => if missingLike p.2.1 ∧ ¬ missingLike p.2.2 then
          some (p.1, p.2.1, p.2.2) else none)
    if ch = [] then none else some (ELog.colChange col ch)

/-- Log entries for the columns the parsed response added. -/
def newColLogs (df enr : DataFrame) : List ELog :=
  (enr.cols.filter (fun c => c ∉ df.cols)).map fun col =>
    ELog.newCol col (colVals enr col).enum

/-- Clearing of the issues column the enrichment agent performs on exit. -/
def clearIssues (df : DataFrame) : DataFrame :=
  if "issues" ∈ df.cols then mapCol df "issues" (fun _ => Cell.str "") else df

/-- Model of enrich_data from the enrichment agent. The external generate
call is an oracle: none models a raised transport error, which the inner
handler converts to the fallback text Unknown; some s models a successful
response body. The prompt construction is not modelled because the oracle
response does not depend on it here. Parsing follows the source: strip
fences, split lines, take the field count of the first line, fail (and
keep the input frame) only when the line list is empty or an empty line
makes the field-count comprehension raise; otherwise the frame is replaced
by the parsed table. -/
def enrich_data (df : DataFrame) (gen : Option String) : DataFrame × List ELog :=
  let response := match gen with
    | some s => pyStrip s
    | none => "Unknown"
  let response := pyStrip (stripFences response)
  let lines := splitLines response
  match lines.head? with
  | none => (clearIssues df, [ELog.parseError])
  | some h =>
    match csvFieldCount h with
    | none => (clearIssues df, [ELog.parseError])
    | some n =>
      if (lines.map csvFieldCount).contains none then
        (clearIssues df, [ELog.parseError])
      else
        let enr := parseCSVTable (lines.filter (fun l => csvFieldCount l = some n))
        (clearIssues enr, colChangeLogs df enr ++ newColLogs df enr ++ [ELog.enrichedAll])

/-- Iteration cap of the orchestrator. -/
def MAX_ITERATIONS : Nat := 3

/-- Orchestrator loop of the CLI, counting detection passes. The fuel r is
the number of loop iterations still permitted, so the source condition
iteration = max_iterations is r = 0 after the current iteration started;
gens supplies one oracle response per enrichment call. Each iteration runs
detection, then correction only if some issue text is nonblank, then
enrichment only if some missing-like value remains; on the final permitted
iteration an extra detection pass runs after enrichment. The loop breaks
when correction or enrichment is skipped. -/
def pipelineLoop : Nat → List (Option String) → DataFrame → DataFrame × Nat
  | 0, _, df => (df, 0)
  | r + 1, gens, df =>
    let df1 := detect_issues df
    if needs_correction df1 then
      let df2 := correct_issues df1
      if needs_enrichment df2 then
        let df3 := (enrich_data df2 (gens.headD none)).1
        if r = 0 then (detect_issues df3, 2)
        else
          let res := pipelineLoop r gens.tail df3
          (res.1, res.2 + 1)
      else (df2, 1)
    else (df1, 1)

/-- Whole pipeline of the CLI main: the frame finally written to the output
csv, paired with the number of detection passes performed. -/
def pipeline (df : DataFrame) (gens : List (Option String)) : DataFrame × Nat :=
  pipelineLoop MAX_ITERATIONS gens df

/-- Modelled from the spec wording of the age rule, for comparison with the
source: the pool of ages that are numeric and lie in the half-open
interval (0, 120]. The source filter is strictly below 120 instead. -/
def specAgePool (df : DataFrame) : List ℚ :=
  (colVals df "age").filterMap fun c =>
    match c with
    | Cell.num q => if 0 < q ∧ q ≤ 120 then some q else none
    | _ => none

/-- Columns the correction agent rewrites or removes; every other column
must keep its cell values. -/
def protectedCols : List String :=
  ["first_name", "last_name", "full_name", "country", "age", "loyalty_points",
   "gender", "marital_status", "phone", "city", "issues"]

/-- One-row frame with a single valid email cell. -/
def dfEmailRow : DataFrame := ⟨["email"], [[("email", Cell.str "a@b.com")]]⟩

/-- One-row frame whose country is the sentinel Unknown, which detection
flags but correction and enrichment never change. -/
def dfCountryUnknown : DataFrame :=
  ⟨["country"], [[("country", Cell.str "Unknown")]]⟩

/-- Oracle responses that echo the country Unknown table back from each
enrichment call. -/
def gensUnknown : List (Option String) :=
  [some "country\nUnknown", some "country\nUnknown", some "country\nUnknown"]

/-- One-row frame with one invalid gender. -/
def dfGenderX : DataFrame := ⟨["gender"], [[("gender", Cell.str "X")]]⟩

/-- Two-row frame with distinct invalid genders that correction maps to the
same value. -/
def dfGenderXY : DataFrame :=
  ⟨["gender"], [[("gender", Cell.str "X")], [("gender", Cell.str "Y")]]⟩

/-- One-row frame with a single canonical gender. -/
def dfGenderMale : DataFrame := ⟨["gender"], [[("gender", Cell.str "Male")]]⟩

/-- One-row frame with a two-digit phone value. -/
def dfPhoneShort : DataFrame := ⟨["phone"], [[("phone", Cell.str "12-34")]]⟩

/-- One-row frame whose only age is implausible, leaving the plausible-age
pool empty. -/
def dfAgeNeg : DataFrame := ⟨["age"], [[("age", Cell.num (-5))]]⟩

/-- Frame of the spec age scenario: one implausible age next to the valid
ages 30, 40 and 50. -/
def dfAgeScenario : DataFrame :=
  ⟨["age"], [[("age", Cell.num (-5))], [("age", Cell.num 30)],
    [("age", Cell.num 40)], [("age", Cell.num 50)]]⟩

/-- Frame separating the two candidate median pools: the age 120 is kept by
correction but excluded from the source median pool. -/
def dfAge120 : DataFrame :=
  ⟨["age"], [[("age", Cell.num 30)], [("age", Cell.num 120)],
    [("age", Cell.num (-5))]]⟩

/-- One-row frame with a single plausible age. -/
def dfAge30 : DataFrame := ⟨["age"], [[("age", Cell.num 30)]]⟩

theorem toNat_pyToLower (c : Char) :
    (pyToLower c).toNat =
      if 65 ≤ c.toNat ∧ c.toNat ≤ 90 then c.toNat + 32 else c.toNat := by
  unfold pyToLower
  split
  · next h =>
    have hm : (UInt32.ofNat (c.toNat + 32)).toNat = (c.toNat + 32) % 4294967296 := rfl
    show (UInt32.ofNat (c.toNat + 32)).toNat = _
    rw [hm]
    exact Nat.mod_eq_of_lt (by omega)
  · rfl

theorem toNat_pyToUpper (c : Char) :
    (pyToUpper c).toNat =
      if 97 ≤ c.toNat ∧ c.toNat ≤ 122 then c.toNat - 32 else c.toNat := by
  unfold pyToUpper
  split
  · next h =>
    have hm : (UInt32.ofNat (c.toNat - 32)).toNat = (c.toNat - 32) % 4294967296 := rfl
    show (UInt32.ofNat (c.toNat - 32)).toNat = _
    rw [hm]
    exact Nat.mod_eq_of_lt (by omega)
  · rfl

theorem pyToLower_eq_self (c : Char) (h : ¬(65 ≤ c.toNat ∧ c.toNat ≤ 90)) :
    pyToLower c = c := by
  unfold pyToLower
  exact dif_neg h

theorem pyToUpper_eq_self (c : Char) (h : ¬(97 ≤ c.toNat ∧ c.toNat ≤ 122)) :
    pyToUpper c = c := by
  unfold pyToUpper
  exact dif_neg h

theorem isAlphaA_pyToLower (c : Char) : isAlphaA (pyToLower c) = isAlphaA c := by
  simp only [isAlphaA, isUpperA, isLowerA, toNat_pyToLower]
  by_cases h : 65 ≤ c.toNat ∧ c.toNat ≤ 90
  · rw [if_pos h]
    apply Bool.eq_iff_iff.mpr
    simp only [Bool.or_eq_true, Bool.and_eq_true, decide_eq_true_eq]
    omega
  · rw [if_neg h]

theorem isAlphaA_pyToUpper (c : Char) : isAlphaA (pyToUpper c) = isAlphaA c := by
  simp only [isAlphaA, isUpperA, isLowerA, toNat_pyToUpper]
  by_cases h : 97 ≤ c.toNat ∧ c.toNat ≤ 122
  · rw [if_pos h]
    apply Bool.eq_iff_iff.mpr
    simp only [Bool.or_eq_true, Bool.and_eq_true, decide_eq_true_eq]
    omega
  · rw [if_neg h]

theorem pySpace_pyToLower (c : Char) : pySpace (pyToLower c) = pySpace c := by
  simp only [pySpace, toNat_pyToLower]
  by_cases h : 65 ≤ c.toNat ∧ c.toNat ≤ 90
  · rw [if_pos h]
    apply Bool.eq_iff_iff.mpr
    simp only [Bool.or_eq_true, decide_eq_true_eq]
    omega
  · rw [if_neg h]

theorem pySpace_pyToUpper (c : Char) : pySpace (pyToUpper c) = pySpace c := by
  simp only [pySpace, toNat_pyToUpper]
  by_cases h : 97 ≤ c.toNat ∧ c.toNat ≤ 122
  · rw [if_pos h]
    apply Bool.eq_iff_iff.mpr
    simp only [Bool.or_eq_true, decide_eq_true_eq]
    omega
  · rw [if_neg h]

theorem pyToLower_pyToLower (c : Char) :
    pyToLower (pyToLower c) = pyToLower c := by
  have h1 := toNat_pyToLower c
  by_cases h0 : 65 ≤ c.toNat ∧ c.toNat ≤ 90
  · rw [if_pos h0] at h1
    exact pyToLower_eq_self _ (by omega)
  · rw [if_neg h0] at h1
    rw [pyToLower_eq_self c h0, pyToLower_eq_self c h0]

theorem pyToUpper_pyToUpper (c : Char) :
    pyToUpper (pyToUpper c) = pyToUpper c := by
  have h1 := toNat_pyToUpper c
  by_cases h0 : 97 ≤ c.toNat ∧ c.toNat ≤ 122
  · rw [if_pos h0] at h1
    exact pyToUpper_eq_self _ (by omega)
  · rw [if_neg h0] at h1
    rw [pyToUpper_eq_self c h0, pyToUpper_eq_self c h0]

theorem pyToUpper_of_space (c : Char) (h : pySpace c = true) : pyToUpper c = c := by
  refine pyToUpper_eq_self c ?_
  simp only [pySpace, Bool.or_eq_true, decide_eq_true_eq] at h
  omega

theorem pyToLower_of_space (c : Char) (h : pySpace c = true) : pyToLower c = c := by
  refine pyToLower_eq_self c ?_
  simp only [pySpace, Bool.or_eq_true, decide_eq_true_eq] at h
  omega

theorem not_isAlphaA_of_space (c : Char) (h : pySpace c = true) :
    isAlphaA c = false := by
  simp only [pySpace, Bool.or_eq_true, decide_eq_true_eq] at h
  simp only [isAlphaA, isUpperA, isLowerA, Bool.or_eq_false_iff,
    Bool.and_eq_false_iff, decide_eq_false_iff_not]
  omega

theorem titleState_cons (p : Bool) (c : Char) (cs : List Char) :
    titleState p (c :: cs) = titleState (isAlphaA c) cs := by
  cases cs with
  | nil => rfl
  | cons d ds =>
    unfold titleState
    rw [List.getLast?_cons_cons]
    cases hg : (d :: ds).getLast? with
    | none => simp at hg
    | some e => rfl

theorem titleAux_append (p : Bool) (l₁ l₂ : List Char) :
    titleAux p (l₁ ++ l₂) = titleAux p l₁ ++ titleAux (titleState p l₁) l₂ := by
  induction l₁ generalizing p with
  | nil => rfl
  | cons c cs ih =>
    simp only [List.cons_append, titleAux, List.append_eq, ih (isAlphaA c),
      titleState_cons]

theorem titleAux_idem (p : Bool) (l : List Char) :
    titleAux p (titleAux p l) = titleAux p l := by
  induction l generalizing p with
  | nil => rfl
  | cons c cs ih =>
    simp only [titleAux]
    cases p with
    | false =>
      simp only [Bool.false_eq_true, if_neg, ite_false, titleAux,
        pyToUpper_pyToUpper, isAlphaA_pyToUpper, ih]
    | true =>
      simp only [ite_true, titleAux, pyToLower_pyToLower, isAlphaA_pyToLower, ih]

theorem titleAux_of_space (p : Bool) (l : List Char) (h : ∀ c ∈ l, pySpace c = true) :
    titleAux p l = l := by
  induction l generalizing p with
  | nil => rfl
  | cons c cs ih =>
    have hc := h c (by simp)
    simp only [titleAux, ih (isAlphaA c) (fun d hd => h d (by simp [hd]))]
    cases p with
    | false => simp [pyToUpper_of_space c hc]
    | true => simp [pyToLower_of_space c hc]

theorem titleState_of_space (l : List Char) (h : ∀ c ∈ l, pySpace c = true) :
    titleState false l = false := by
  unfold titleState
  cases hg : l.getLast? with
  | none => rfl
  | some c =>
    exact not_isAlphaA_of_space c (h c (List.mem_of_mem_getLast? hg))

theorem dropWhile_head_not {α : Type} (p : α → Bool) (l : List α) (c : α)
    (h : (l.dropWhile p).head? = some c) : p c = false := by
  induction l with
  | nil => simp [List.dropWhile] at h
  | cons a l ih =>
    by_cases hp : p a = true
    · rw [List.dropWhile_cons_of_pos hp] at h
      exact ih h
    · rw [List.dropWhile_cons_of_neg hp] at h
      simp only [List.head?_cons, Option.some_inj] at h
      subst h
      exact Bool.eq_false_iff.mpr hp

theorem dropWhile_eq_self_of_head {α : Type} (p : α → Bool) (l : List α)
    (h : ∀ c, l.head? = some c → p c = false) : l.dropWhile p = l := by
  cases l with
  | nil => rfl
  | cons a l =>
    have := h a rfl
    rw [List.dropWhile_cons_of_neg (by simp [this])]

theorem stripL_decomposition (t : List Char) :
    ∃ sp₁ sp₂, t = sp₁ ++ stripL t ++ sp₂ ∧
      (∀ c ∈ sp₁, pySpace c = true) ∧ (∀ c ∈ sp₂, pySpace c = true) := by
  refine ⟨t.takeWhile pySpace, ((stripLeft t).reverse.takeWhile pySpace).reverse,
    ?_, ?_, ?_⟩
  · have h1 : t.takeWhile pySpace ++ stripLeft t = t :=
      List.takeWhile_append_dropWhile pySpace t
    have h2 : (stripLeft t).reverse.takeWhile pySpace ++
        (stripLeft t).reverse.dropWhile pySpace = (stripLeft t).reverse :=
      List.takeWhile_append_dropWhile pySpace (stripLeft t).reverse
    have h3 : stripLeft t =
        ((stripLeft t).reverse.dropWhile pySpace).reverse ++
          ((stripLeft t).reverse.takeWhile pySpace).reverse := by
      calc stripLeft t = (stripLeft t).reverse.reverse := (List.reverse_reverse _).symm
        _ = ((stripLeft t).reverse.takeWhile pySpace ++
              (stripLeft t).reverse.dropWhile pySpace).reverse := by rw [h2]
        _ = _ := by rw [List.reverse_append]
    conv_lhs => rw [← h1, h3]
    rw [List.append_assoc]
    rfl
  · intro c hc
    exact List.mem_takeWhile_imp hc
  · intro c hc
    rw [List.mem_reverse] at hc
    exact List.mem_takeWhile_imp hc

theorem stripL_head_not (t : List Char) (c : Char)
    (h : (stripL t).head? = some c) : pySpace c = false := by
  have hsuf : (stripLeft t).reverse.dropWhile pySpace <:+ (stripLeft t).reverse :=
    List.dropWhile_suffix pySpace
  have hpre : stripL t <+: stripLeft t := by
    have h2 := List.reverse_prefix.mpr hsuf
    rw [List.reverse_reverse] at h2
    exact h2
  obtain ⟨rest, hrest⟩ := hpre
  have hh : (stripLeft t).head? = some c := by
    rw [← hrest, List.head?_append, h]
    rfl
  exact dropWhile_head_not pySpace t c hh

theorem stripL_reverse_head_not (t : List Char) (c : Char)
    (h : (stripL t).reverse.head? = some c) : pySpace c = false := by
  have hrev : (stripL t).reverse = (stripLeft t).reverse.dropWhile pySpace := by
    unfold stripL
    rw [List.reverse_reverse]
  rw [hrev] at h
  exact dropWhile_head_not pySpace (stripLeft t).reverse c h

theorem stripL_stripL (t : List Char) : stripL (stripL t) = stripL t := by
  have hd : (stripL t).dropWhile pySpace = stripL t :=
    dropWhile_eq_self_of_head pySpace (stripL t) (stripL_head_not t)
  have hr : (stripL t).reverse.dropWhile pySpace = (stripL t).reverse :=
    dropWhile_eq_self_of_head pySpace (stripL t).reverse (stripL_reverse_head_not t)
  have e1 : stripL (stripL t) =
      (((stripL t).dropWhile pySpace).reverse.dropWhile pySpace).reverse := rfl
  rw [e1, hd, hr, List.reverse_reverse]

theorem title_stripL_title (l : List Char) :
    titleAux false (stripL (titleAux false l)) = stripL (titleAux false l) := by
  obtain ⟨sp₁, sp₂, ht, h1, h2⟩ := stripL_decomposition (titleAux false l)
  have htt : titleAux false (titleAux false l) = titleAux false l :=
    titleAux_idem false l
  have hkey : titleAux false (sp₁ ++ (stripL (titleAux false l) ++ sp₂)) =
      sp₁ ++ (stripL (titleAux false l) ++ sp₂) := by
    rw [List.append_assoc] at ht
    rw [← ht]
    exact htt
  rw [titleAux_append, titleAux_of_space _ sp₁ h1, titleState_of_space sp₁ h1,
    titleAux_append, titleAux_of_space _ sp₂ h2] at hkey
  have hmid := List.append_cancel_left hkey
  exact List.append_cancel_right hmid

theorem stripTitle_idem (l : List Char) :
    stripL (titleAux false (stripL (titleAux false l))) =
      stripL (titleAux false l) := by
  rw [title_stripL_title l, stripL_stripL]

theorem nameCleanStr_idem (s : String) :
    nameCleanStr (nameCleanStr s) = nameCleanStr s := by
  unfold nameCleanStr
  by_cases hbad : pyStrip (pyTitle s) = "Nan" ∨ pyStrip (pyTitle s) = "nan" ∨
      pyStrip (pyTitle s) = ""
  · rw [if_pos hbad]
    decide
  · rw [if_neg hbad]
    have hfix : pyStrip (pyTitle (pyStrip (pyTitle s))) = pyStrip (pyTitle s) := by
      unfold pyStrip pyTitle titleL
      show String.mk (stripL (titleAux false (String.mk (stripL (titleAux false s.data))).data)) = _
      have hdata : (String.mk (stripL (titleAux false s.data))).data =
          stripL (titleAux false s.data) := rfl
      rw [hdata, stripTitle_idem]
    rw [hfix, if_neg hbad]

theorem name_clean_idem (c : Cell) : name_clean (name_clean c) = name_clean c := by
  unfold name_clean
  have : cellToStr (Cell.str (nameCleanStr (cellToStr c))) =
      nameCleanStr (cellToStr c) := rfl
  rw [this, nameCleanStr_idem]

theorem rowVal_cons (a : String) (v : Cell) (r : Row) (c : String) :
    rowVal ((a, v) :: r) c = if a = c then v else rowVal r c := by
  unfold rowVal
  by_cases h : a = c
  · rw [List.find?_cons_of_pos _ (by simp [h]), if_pos h]
  · rw [List.find?_cons_of_neg _ (by simp [h]), if_neg h]

theorem hasKey_cons (a : String) (v : Cell) (r : Row) (c : String) :
    hasKey ((a, v) :: r) c = if a = c then true else hasKey r c := by
  unfold hasKey
  by_cases h : a = c
  · rw [List.find?_cons_of_pos _ (by simp [h]), if_pos h]
    rfl
  · rw [List.find?_cons_of_neg _ (by simp [h]), if_neg h]

theorem rowVal_updateFirst_ne (k c : String) (f : Cell → Cell) (r : Row)
    (h : c ≠ k) : rowVal (updateFirst k f r) c = rowVal r c := by
  induction r with
  | nil => rfl
  | cons p r ih =>
    obtain ⟨a, v⟩ := p
    unfold updateFirst
    by_cases ha : a = k
    · rw [if_pos ha, rowVal_cons, rowVal_cons, if_neg (by rw [ha]; exact fun e => h e.symm),
        if_neg (by rw [ha]; exact fun e => h e.symm)]
    · rw [if_neg ha, rowVal_cons, rowVal_cons]
      by_cases hac : a = c
      · rw [if_pos hac, if_pos hac]
      · rw [if_neg hac, if_neg hac, ih]

theorem rowVal_updateFirst_eq (k : String) (f : Cell → Cell) (r : Row) :
    rowVal (updateFirst k f r) k =
      if hasKey r k then f (rowVal r k) else Cell.null := by
  induction r with
  | nil => rfl
  | cons p r ih =>
    obtain ⟨a, v⟩ := p
    unfold updateFirst
    by_cases ha : a = k
    · rw [if_pos ha, rowVal_cons, hasKey_cons, rowVal_cons, if_pos ha, if_pos ha,
        if_pos rfl, if_pos ha]
    · rw [if_neg ha, rowVal_cons, hasKey_cons, rowVal_cons, if_neg ha, if_neg ha,
        if_neg ha, ih]

theorem hasKey_updateFirst (k c : String) (f : Cell → Cell) (r : Row) :
    hasKey (updateFirst k f r) c = hasKey r c := by
  induction r with
  | nil => rfl
  | cons p r ih =>
    obtain ⟨a, v⟩ := p
    unfold updateFirst
    by_cases ha : a = k
    · rw [if_pos ha, hasKey_cons, hasKey_cons]
    · rw [if_neg ha, hasKey_cons, hasKey_cons, ih]

theorem keys_updateFirst (k : String) (f : Cell → Cell) (r : Row) :
    (updateFirst k f r).map Prod.fst = r.map Prod.fst := by
  induction r with
  | nil => rfl
  | cons p r ih =>
    obtain ⟨a, v⟩ := p
    unfold updateFirst
    by_cases ha : a = k
    · rw [if_pos ha]
      simp only [List.map_cons]
    · rw [if_neg ha]
      simp only [List.map_cons, ih]

theorem updateFirst_eq_self (k : String) (f : Cell → Cell) (r : Row)
    (h : f (rowVal r k) = rowVal r k) : updateFirst k f r = r := by
  induction r with
  | nil => rfl
  | cons p r ih =>
    obtain ⟨a, v⟩ := p
    unfold updateFirst
    by_cases ha : a = k
    · rw [if_pos ha]
      rw [rowVal_cons, if_pos ha] at h
      rw [h]
    · rw [if_neg ha]
      rw [rowVal_cons, if_neg ha] at h
      rw [ih h]

theorem updateFirst_of_not_hasKey (k : String) (f : Cell → Cell) (r : Row)
    (h : hasKey r k = false) : updateFirst k f r = r := by
  induction r with
  | nil => rfl
  | cons p r ih =>
    obtain ⟨a, v⟩ := p
    rw [hasKey_cons] at h
    unfold updateFirst
    by_cases ha : a = k
    · rw [if_pos ha] at h
      exact absurd h (by simp)
    · rw [if_neg ha] at h
      rw [if_neg ha, ih h]

theorem hasKey_iff_mem_keys (r : Row) (k : String) :
    hasKey r k = true ↔ k ∈ r.map Prod.fst := by
  induction r with
  | nil => simp [hasKey, List.find?]
  | cons p r ih =>
    obtain ⟨a, v⟩ := p
    rw [hasKey_cons]
    by_cases ha : a = k
    · simp [ha]
    · simp only [if_neg ha, List.map_cons, List.mem_cons, ih]
      constructor
      · exact fun h => Or.inr h
      · rintro (h | h)
        · exact absurd h.symm ha
        · exact h

theorem rowVal_filterKey (k c : String) (r : Row) (h : c ≠ k) :
    rowVal (r.filter (fun p => p.1 ≠ k)) c = rowVal r c := by
  induction r with
  | nil => rfl
  | cons p r ih =>
    obtain ⟨a, v⟩ := p
    by_cases ha : a = k
    · rw [List.filter_cons_of_neg (by simp [ha]), rowVal_cons,
        if_neg (by rw [ha]; exact fun e => h e.symm), ih]
    · rw [List.filter_cons_of_pos (by simp [ha]), rowVal_cons, rowVal_cons]
      by_cases hac : a = c
      · rw [if_pos hac, if_pos hac]
      · rw [if_neg hac, if_neg hac, ih]

theorem hasKey_filterKey (k c : String) (r : Row) (h : c ≠ k) :
    hasKey (r.filter (fun p => p.1 ≠ k)) c = hasKey r c := by
  induction r with
  | nil => rfl
  | cons p r ih =>
    obtain ⟨a, v⟩ := p
    by_cases ha : a = k
    · rw [List.filter_cons_of_neg (by simp [ha]), hasKey_cons,
        if_neg (by rw [ha]; exact fun e => h e.symm), ih]
    · rw [List.filter_cons_of_pos (by simp [ha]), hasKey_cons, hasKey_cons]
      by_cases hac : a = c
      · rw [if_pos hac, if_pos hac]
      · rw [if_neg hac, if_neg hac, ih]

theorem keys_filterKey (k : String) (r : Row) :
    (r.filter (fun p => p.1 ≠ k)).map Prod.fst =
      (r.map Prod.fst).filter (fun c => c ≠ k) := by
  induction r with
  | nil => rfl
  | cons p r ih =>
    obtain ⟨a, v⟩ := p
    by_cases ha : a = k
    · rw [List.filter_cons_of_neg (by simp [ha]), List.map_cons,
        List.filter_cons_of_neg (by simp [ha]), ih]
    · rw [List.filter_cons_of_pos (by simp [ha]), List.map_cons, List.map_cons,
        List.filter_cons_of_pos (by simp [ha]), ih]

theorem dedupAux_sublist (seen l : List Row) : List.Sublist (dedupAux seen l) l := by
  induction l generalizing seen with
  | nil => exact List.Sublist.refl []
  | cons r rs ih =>
    unfold dedupAux
    by_cases h : r ∈ seen
    · rw [if_pos h]
      exact List.Sublist.cons r (ih seen)
    · rw [if_neg h]
      exact List.Sublist.cons₂ r (ih (r :: seen))

theorem dedupAux_eq_self (seen l : List Row) (hnd : l.Nodup)
    (hdisj : ∀ r ∈ l, r ∉ seen) : dedupAux seen l = l := by
  induction l generalizing seen with
  | nil => rfl
  | cons r rs ih =>
    unfold dedupAux
    rw [if_neg (hdisj r (by simp))]
    rw [ih (r :: seen) (List.Nodup.of_cons hnd)]
    intro x hx
    simp only [List.mem_cons, not_or]
    exact ⟨fun e => (List.nodup_cons.mp hnd).1 (e ▸ hx), hdisj x (by simp [hx])⟩

theorem cols_colStep (df : DataFrame) (k : String) (f : Cell → Cell) :
    (colStep df k f).cols = df.cols := by
  unfold colStep
  split <;> rfl

theorem colVals_colStep_ne (df : DataFrame) (k : String) (f : Cell → Cell)
    (c : String) (h : c ≠ k) : colVals (colStep df k f) c = colVals df c := by
  unfold colStep
  split
  · unfold colVals mapCol
    simp only [List.map_map]
    refine List.map_congr_left ?_
    intro r _
    exact rowVal_updateFirst_ne k c f r h
  · rfl

theorem colVals_colStep_self (df : DataFrame) (k : String) (f : Cell → Cell)
    (hk : k ∈ df.cols) (hrows : ∀ r ∈ df.rows, hasKey r k = true) :
    colVals (colStep df k f) k = (colVals df k).map f := by
  unfold colStep
  rw [if_pos hk]
  unfold colVals mapCol
  simp only [List.map_map]
  refine List.map_congr_left ?_
  intro r hr
  show rowVal (updateFirst k f r) k = f (rowVal r k)
  rw [rowVal_updateFirst_eq, if_pos (hrows r hr)]

theorem colStep_eq_self (df : DataFrame) (k : String) (f : Cell → Cell)
    (h : ∀ r ∈ df.rows, hasKey r k = true → f (rowVal r k) = rowVal r k) :
    colStep df k f = df := by
  unfold colStep
  split
  · unfold mapCol
    have hrows : df.rows.map (updateFirst k f) = df.rows := by
      conv_rhs => rw [← List.map_id df.rows]
      refine List.map_congr_left ?_
      intro r hr
      show updateFirst k f r = r
      cases hk : hasKey r k with
      | true => exact updateFirst_eq_self k f r (h r hr hk)
      | false => exact updateFirst_of_not_hasKey k f r hk
    rw [hrows]
  · rfl

theorem WF_hasKey (df : DataFrame) (h : WF df) (k : String) (hk : k ∈ df.cols) :
    ∀ r ∈ df.rows, hasKey r k = true := by
  intro r hr
  rw [hasKey_iff_mem_keys, h r hr]
  exact hk

theorem WF_colStep (df : DataFrame) (k : String) (f : Cell → Cell) (h : WF df) :
    WF (colStep df k f) := by
  unfold colStep
  split
  · intro r hr
    simp only [mapCol, List.mem_map] at hr
    obtain ⟨r₀, hr₀, rfl⟩ := hr
    rw [keys_updateFirst]
    exact h r₀ hr₀
  · exact h

theorem WF_drop_duplicates (df : DataFrame) (h : WF df) :
    WF (drop_duplicates df) := by
  intro r hr
  exact h r ((dedupAux_sublist [] df.rows).subset hr)

theorem nameStd_eq (df : DataFrame) :
    nameStd df =
      colStep (colStep (colStep df "first_name" name_clean) "last_name" name_clean)
        "full_name" name_clean := rfl

theorem cols_nameStd (df : DataFrame) : (nameStd df).cols = df.cols := by
  rw [nameStd_eq, cols_colStep, cols_colStep, cols_colStep]

theorem colVals_nameStd_ne (df : DataFrame) (c : String)
    (h1 : c ≠ "first_name") (h2 : c ≠ "last_name") (h3 : c ≠ "full_name") :
    colVals (nameStd df) c = colVals df c := by
  rw [nameStd_eq, colVals_colStep_ne _ _ _ _ h3, colVals_colStep_ne _ _ _ _ h2,
    colVals_colStep_ne _ _ _ _ h1]

theorem WF_nameStd (df : DataFrame) (h : WF df) : WF (nameStd df) := by
  rw [nameStd_eq]
  exact WF_colStep _ _ _ (WF_colStep _ _ _ (WF_colStep _ _ _ h))

theorem cols_preCountry (df : DataFrame) : (preCountry df).cols = df.cols := by
  unfold preCountry drop_duplicates
  exact cols_nameStd df

theorem WF_preCountry (df : DataFrame) (h : WF df) : WF (preCountry df) :=
  WF_drop_duplicates _ (WF_nameStd df h)

theorem cols_preAge (df : DataFrame) : (preAge df).cols = df.cols := by
  unfold preAge countryFix
  rw [cols_colStep]
  exact cols_preCountry df

theorem WF_preAge (df : DataFrame) (h : WF df) : WF (preAge df) :=
  WF_colStep _ _ _ (WF_preCountry df h)

theorem cols_prePhone (df : DataFrame) : (prePhone df).cols = df.cols := by
  unfold prePhone maritalFix genderFix loyaltyFix ageFix
  rw [cols_colStep, cols_colStep, cols_colStep, cols_colStep]
  exact cols_preAge df

theorem WF_prePhone (df : DataFrame) (h : WF df) : WF (prePhone df) := by
  unfold prePhone maritalFix genderFix loyaltyFix ageFix
  exact WF_colStep _ _ _ (WF_colStep _ _ _ (WF_colStep _ _ _ (WF_colStep _ _ _
    (WF_preAge df h))))

theorem dropIssues_cols (df : DataFrame) :
    (dropIssues df).cols = df.cols.filter (fun c => c ≠ "issues") := by
  unfold dropIssues
  split
  · rfl
  · next h =>
    refine (List.filter_eq_self.mpr ?_).symm
    intro c hc
    simp only [ne_eq, decide_eq_true_eq]
    exact fun e => h (e ▸ hc)

theorem colVals_dropIssues_ne (df : DataFrame) (c : String) (h : c ≠ "issues") :
    colVals (dropIssues df) c = colVals df c := by
  unfold dropIssues
  split
  · unfold colVals
    simp only [List.map_map]
    refine List.map_congr_left ?_
    intro r _
    exact rowVal_filterKey "issues" c r h
  · rfl

theorem WF_dropIssues (df : DataFrame) (h : WF df) : WF (dropIssues df) := by
  unfold dropIssues
  split
  · intro r hr
    simp only [List.mem_map] at hr
    obtain ⟨r₀, hr₀, rfl⟩ := hr
    rw [keys_filterKey, h r₀ hr₀]
  · exact h

theorem cols_correct_issues (df : DataFrame) :
    (correct_issues df).cols = df.cols.filter (fun c => c ≠ "issues") := by
  unfold correct_issues cityFix phoneFix
  rw [dropIssues_cols, cols_colStep, cols_colStep, cols_prePhone]

theorem correct_issues_no_issues_col (df : DataFrame) :
    "issues" ∉ (correct_issues df).cols := by
  rw [cols_correct_issues]
  intro h
  have := List.of_mem_filter h
  simp at this

theorem WF_correct_issues (df : DataFrame) (h : WF df) :
    WF (correct_issues df) := by
  unfold correct_issues cityFix phoneFix
  exact WF_dropIssues _ (WF_colStep _ _ _ (WF_colStep _ _ _ (WF_prePhone df h)))

end DataClean

namespace DataClean

theorem pipelineLoop_count_le (r : Nat) (gens : List (Option String))
    (df : DataFrame) : (pipelineLoop r gens df).2 ≤ r + 1 := by
  induction r generalizing gens df with
  | zero => exact Nat.zero_le 1
  | succ n ih =>
    simp only [pipelineLoop]
    split
    · split
      · split
        · exact by omega
        · have := ih gens.tail ((enrich_data (correct_issues (detect_issues df))
            (gens.headD none)).1)
          omega
      · exact by omega
    · exact by omega

/-- Claim C2 counterexample: on a dataset whose only defect (a country cell
holding the sentinel Unknown) survives correction and enrichment, one run
of the orchestrator performs 4 detection passes, not at most 3: one per
iteration plus the extra re-check of the final iteration. -/
theorem c2_counterexample_four_detection_passes :
    (pipeline dfCountryUnknown gensUnknown).2 = 4 := by decide

/-- Claim C2 (corrected bound): for every input dataset and every sequence
of enrichment responses, one orchestrator run invokes the detection stage
at most 4 times (3 loop iterations plus the final-iteration re-check). -/
theorem c2_detection_pass_bound (df : DataFrame) (gens : List (Option String)) :
    (pipeline df gens).2 ≤ 4 := by
  have h := pipelineLoop_count_le 3 gens df
  simpa [pipeline, MAX_ITERATIONS] using h

/-- Claim C1: on a transport error the enrichment stage does not leave the
dataset unchanged: the inner handler returns the fallback text Unknown,
which parses as a zero-row single-column table that replaces the dataset,
and the log records a success entry rather than a failure entry. -/
theorem c1_enrich_failure_replaces_dataset :
    (enrich_data dfEmailRow none).1 = ⟨["Unknown"], []⟩ ∧
    (enrich_data dfEmailRow none).1 ≠ dfEmailRow ∧
    ELog.parseError ∉ (enrich_data dfEmailRow none).2 := by
  refine ⟨by decide, by decide, by decide⟩

/-- Claim C3 counterexample: on a clean one-row dataset the loop stops
because detection finds no nonempty issue set, yet the frame written as
final output still contains the Issues Column detection created. -/
theorem c3_counterexample_issues_column_in_output :
    needs_correction (detect_issues dfEmailRow) = false ∧
    "issues" ∈ (pipeline dfEmailRow []).1.cols := by
  refine ⟨by decide, by decide⟩

theorem data_append (a b : String) : (a ++ b).data = a.data ++ b.data := rfl

theorem rowTags_length_ne_zero (df : DataFrame) (r : Row) :
    (rowTags df r).length ≠ 0 := by
  unfold rowTags
  simp only [List.length_append, List.length_cons, List.length_nil]
  omega

theorem detect_issues_eq (df : DataFrame) :
    detect_issues df =
      setCol df "issues" (df.rows.map (fun r => Cell.str (issuesStr df r))) := by
  unfold detect_issues
  rw [if_pos (rowTags_length_ne_zero df [])]

theorem issues_mem_detect_issues_cols (df : DataFrame) :
    "issues" ∈ (detect_issues df).cols := by
  rw [detect_issues_eq]
  unfold setCol
  by_cases h : "issues" ∈ df.cols
  · rw [if_pos h]
    exact h
  · rw [if_neg h]
    exact List.mem_append_right _ (List.mem_singleton.mpr rfl)

theorem zipWith_map_self {α β γ : Type} (f : α → β) (g : α → β → γ)
    (l : List α) :
    List.zipWith g l (l.map f) = l.map (fun a => g a (f a)) := by
  induction l with
  | nil => rfl
  | cons a t ih => simp only [List.map_cons, List.zipWith_cons_cons, ih]

theorem detect_issues_rows (df : DataFrame) :
    (detect_issues df).rows =
      if "issues" ∈ df.cols then
        df.rows.map (fun r =>
          updateFirst "issues" (fun _ => Cell.str (issuesStr df r)) r)
      else
        df.rows.map (fun r => r ++ [("issues", Cell.str (issuesStr df r))]) := by
  rw [detect_issues_eq]
  unfold setCol
  by_cases h : "issues" ∈ df.cols
  · rw [if_pos h, if_pos h]
    exact zipWith_map_self _ _ _
  · rw [if_neg h, if_neg h]
    exact zipWith_map_self _ _ _

theorem rowVal_append_single (r : Row) (k : String) (v : Cell)
    (h : hasKey r k = false) : rowVal (r ++ [(k, v)]) k = v := by
  induction r with
  | nil =>
    show rowVal [(k, v)] k = v
    rw [rowVal_cons, if_pos rfl]
  | cons p r ih =>
    obtain ⟨a, w⟩ := p
    rw [hasKey_cons] at h
    by_cases ha : a = k
    · rw [if_pos ha] at h
      exact absurd h (by simp)
    · rw [if_neg ha] at h
      show rowVal ((a, w) :: (r ++ [(k, v)])) k = v
      rw [rowVal_cons, if_neg ha]
      exact ih h

theorem detect_issues_rowVal (df : DataFrame) (hWF : WF df) :
    ∀ row ∈ (detect_issues df).rows, ∃ r0 ∈ df.rows,
      rowVal row "issues" = Cell.str (issuesStr df r0) := by
  intro row hrow
  rw [detect_issues_rows] at hrow
  by_cases h : "issues" ∈ df.cols
  · rw [if_pos h] at hrow
    obtain ⟨r0, hr0, heq⟩ := List.mem_map.mp hrow
    refine ⟨r0, hr0, ?_⟩
    rw [← heq, rowVal_updateFirst_eq, if_pos (WF_hasKey df hWF _ h r0 hr0)]
  · rw [if_neg h] at hrow
    obtain ⟨r0, hr0, heq⟩ := List.mem_map.mp hrow
    refine ⟨r0, hr0, ?_⟩
    have hk : hasKey r0 "issues" = false := by
      cases hcase : hasKey r0 "issues"
      · rfl
      · have hmem := (hasKey_iff_mem_keys r0 "issues").mp hcase
        rw [hWF r0 hr0] at hmem
        exact absurd hmem h
    rw [← heq, rowVal_append_single _ _ _ hk]

theorem pyStrip_ne_of_nonspace (s : String) (c : Char) (hc : c ∈ s.data)
    (hns : pySpace c = false) : pyStrip s ≠ "" := by
  intro h
  have hl : stripL s.data = [] := by
    have h2 := congrArg String.data h
    simpa [pyStrip] using h2
  unfold stripL at hl
  rw [List.reverse_eq_nil_iff, List.dropWhile_eq_nil_iff] at hl
  have hmem : c ∈ stripLeft s.data := by
    unfold stripLeft
    have hsplit : s.data.takeWhile pySpace ++ s.data.dropWhile pySpace = s.data :=
      List.takeWhile_append_dropWhile pySpace s.data
    rw [← hsplit] at hc
    rcases List.mem_append.mp hc with h1 | h1
    · have h3 := List.mem_takeWhile_imp h1
      rw [hns] at h3
      exact absurd h3 (by simp)
    · exact h1
  have hc2 := hl c (List.mem_reverse.mpr hmem)
  rw [hns] at hc2
  exact absurd hc2 (by simp)

theorem mem_intercalate_go (cs : List String) : ∀ (acc s : String) (c : Char),
    c ∈ acc.data → c ∈ (String.intercalate.go acc s cs).data := by
  induction cs with
  | nil =>
    intro acc s c h
    exact h
  | cons a as ih =>
    intro acc s c h
    show c ∈ (String.intercalate.go (acc ++ s ++ a) s as).data
    refine ih _ _ _ ?_
    rw [data_append, data_append]
    exact List.mem_append_left _ (List.mem_append_left _ h)

theorem rowTags_nonspace (df : DataFrame) (r : Row) (t : String)
    (ht : t ∈ rowTags df r) (hne : t ≠ "") :
    ∃ c ∈ t.data, pySpace c = false := by
  unfold rowTags at ht
  simp only [List.mem_append] at ht
  rcases ht with ((((((((h | h) | h) | h) | h) | h) | h) | h) | h)
  · split at h
    · have ht2 := List.mem_singleton.mp h
      split at ht2
      · subst ht2
        exact ⟨Char.ofNat 73, by decide, by decide⟩
      · exact absurd ht2 hne
    · exact absurd h (List.not_mem_nil t)
  · split at h
    · have ht2 := List.mem_singleton.mp h
      split at ht2
      · subst ht2
        exact ⟨Char.ofNat 73, by decide, by decide⟩
      · exact absurd ht2 hne
    · exact absurd h (List.not_mem_nil t)
  · split at h
    · have ht2 := List.mem_singleton.mp h
      split at ht2
      · subst ht2
        exact ⟨Char.ofNat 73, by decide, by decide⟩
      · exact absurd ht2 hne
    · exact absurd h (List.not_mem_nil t)
  · split at h
    · have ht2 := List.mem_singleton.mp h
      split at ht2
      · subst ht2
        exact ⟨Char.ofNat 73, by decide, by decide⟩
      · exact absurd ht2 hne
    · exact absurd h (List.not_mem_nil t)
  · split at h
    · have ht2 := List.mem_singleton.mp h
      split at ht2
      · subst ht2
        exact ⟨Char.ofNat 73, by decide, by decide⟩
      · exact absurd ht2 hne
    · exact absurd h (List.not_mem_nil t)
  · split at h
    · have ht2 := List.mem_singleton.mp h
      split at ht2
      · subst ht2
        exact ⟨Char.ofNat 73, by decide, by decide⟩
      · exact absurd ht2 hne
    · exact absurd h (List.not_mem_nil t)
  · split at h
    · have ht2 := List.mem_singleton.mp h
      split at ht2
      · subst ht2
        exact ⟨Char.ofNat 78, by decide, by decide⟩
      · exact absurd ht2 hne
    · exact absurd h (List.not_mem_nil t)
  · have ht2 := List.mem_singleton.mp h
    split at ht2
    · subst ht2
      exact ⟨Char.ofNat 68, by decide, by decide⟩
    · exact absurd ht2 hne
  · obtain ⟨col, hcol, heq⟩ := List.mem_map.mp h
    split at heq
    · subst heq
      refine ⟨Char.ofNat 69, ?_, by decide⟩
      rw [data_append]
      exact List.mem_append_left _ (by decide)
    · exact absurd heq.symm hne

theorem issuesStr_empty_of_strip (df : DataFrame) (r : Row)
    (h : pyStrip (issuesStr df r) = "") : issuesStr df r = "" := by
  cases hf : (rowTags df r).filter (fun t => t ≠ "") with
  | nil =>
    unfold issuesStr
    rw [hf]
    rfl
  | cons t ts =>
    exfalso
    have hmem : t ∈ (rowTags df r).filter (fun t => t ≠ "") := by
      rw [hf]
      exact List.mem_cons_self t ts
    rw [List.mem_filter] at hmem
    obtain ⟨htags, hne⟩ := hmem
    have hne2 : t ≠ "" := by simpa using hne
    obtain ⟨c, hc, hcs⟩ := rowTags_nonspace df r t htags hne2
    have hmem2 : c ∈ (issuesStr df r).data := by
      unfold issuesStr
      rw [hf]
      show c ∈ (String.intercalate.go t ", " ts).data
      exact mem_intercalate_go ts t _ c hc
    exact pyStrip_ne_of_nonspace _ c hmem2 hcs h

/-- Claim C3 (corrected): the two success exits of the loop. When an
iteration stops the pipeline because correction alone sufficed (detection
flagged issues and the corrected frame has no missing-like value), the
final output is exactly the corrected frame and contains no Issues
Column. When the loop stops because detection found no record with a
nonempty issue set, the output of a rectangular frame is the detected
frame itself: it retains the Issues Column detection just wrote, and
every cell of that column is the empty string. -/
theorem c3_success_exit_issues_column (r : Nat)
    (gens : List (Option String)) (df : DataFrame) :
    (needs_correction (detect_issues df) = true →
      needs_enrichment (correct_issues (detect_issues df)) = false →
      pipelineLoop (r + 1) gens df = (correct_issues (detect_issues df), 1) ∧
      "issues" ∉ (correct_issues (detect_issues df)).cols) ∧
    (WF df →
      needs_correction (detect_issues df) = false →
      pipelineLoop (r + 1) gens df = (detect_issues df, 1) ∧
      "issues" ∈ (detect_issues df).cols ∧
      ∀ row ∈ (detect_issues df).rows, rowVal row "issues" = Cell.str "") := by
  constructor
  · intro h1 h2
    constructor
    · simp only [pipelineLoop, h1, h2]
      simp
    · exact correct_issues_no_issues_col _
  · intro hWF h1
    refine ⟨?_, issues_mem_detect_issues_cols df, ?_⟩
    · simp only [pipelineLoop, h1]
      simp
    · intro row hrow
      obtain ⟨r0, hr0, heq⟩ := detect_issues_rowVal df hWF row hrow
      have hstrip : pyStrip (cellToStr (rowVal row "issues")) = "" := by
        unfold needs_correction at h1
        rw [if_pos (issues_mem_detect_issues_cols df)] at h1
        rw [List.any_eq_false] at h1
        have h2 := h1 row hrow
        simpa using h2
      rw [heq] at hstrip
      have h3 : pyStrip (issuesStr df r0) = "" := hstrip
      rw [heq, issuesStr_empty_of_strip df r0 h3]

/-- Witness for the corrected claim C3: the correction exit at a frame
with one invalid gender, and the detection-clean exit at a clean one-row
frame whose written output keeps a present, all-blank Issues Column. -/
theorem c3_success_exit_issues_column_witness :
    (needs_correction (detect_issues dfGenderX) = true ∧
      needs_enrichment (correct_issues (detect_issues dfGenderX)) = false ∧
      pipelineLoop 3 [] dfGenderX = (correct_issues (detect_issues dfGenderX), 1) ∧
      "issues" ∉ (correct_issues (detect_issues dfGenderX)).cols) ∧
    (WF dfEmailRow ∧
      needs_correction (detect_issues dfEmailRow) = false ∧
      pipelineLoop 3 [] dfEmailRow = (detect_issues dfEmailRow, 1) ∧
      "issues" ∈ (detect_issues dfEmailRow).cols ∧
      ∀ row ∈ (detect_issues dfEmailRow).rows,
        rowVal row "issues" = Cell.str "") := by
  constructor
  · refine ⟨by decide, by decide, ?_⟩
    exact (c3_success_exit_issues_column 2 [] dfGenderX).1 (by decide) (by decide)
  · refine ⟨by decide, by decide, ?_⟩
    exact (c3_success_exit_issues_column 2 [] dfEmailRow).2 (by decide) (by decide)

end DataClean

namespace DataClean

theorem padTo8_length (l : List Char) : 8 ≤ (padTo8 l).length := by
  unfold padTo8
  split
  · next h =>
    rw [List.length_append, List.length_replicate]
    omega
  · next h => omega

theorem phone_clean_eq (c : Cell) :
    phone_clean c =
      Cell.str (phoneFmt (padTo8 ((cellToStr c).data.filter isDigitA))) := by
  simp only [phone_clean]
  rw [if_pos (padTo8_length _)]

theorem padTo8_all_digits (l : List Char) (h : ∀ c ∈ l, isDigitA c = true) :
    ∀ c ∈ padTo8 l, isDigitA c = true := by
  intro c hc
  unfold padTo8 at hc
  split at hc
  · rcases List.mem_append.mp hc with h0 | h0
    · rw [List.eq_of_mem_replicate h0]
      decide
    · exact h c h0
  · exact h c hc

theorem phoneOk_phoneFmt (d : List Char) (hlen : 8 ≤ d.length)
    (hdig : ∀ c ∈ d, isDigitA c = true) : phoneOk (phoneFmt d) = true := by
  unfold phoneFmt phoneOk
  set last8 := d.drop (d.length - 8) with hlast8
  have h8 : last8.length = 8 := by
    rw [hlast8, List.length_drop]
    omega
  have hdig8 : ∀ c ∈ last8, isDigitA c = true := by
    intro c hc
    exact hdig c (List.mem_of_mem_drop hc)
  have htk : (last8.take 4).length = 4 := by
    rw [List.length_take]
    omega
  have hdr : (last8.drop 4).length = 4 := by
    rw [List.length_drop]
    omega
  have hsplit : (String.mk (last8.take 4 ++ '-' :: last8.drop 4)).data =
      (last8.take 4 ++ ['-']) ++ last8.drop 4 := by
    simp
  refine Bool.or_eq_true_iff.mpr (Or.inr ?_)
  rw [hsplit]
  have hlen9 : ((last8.take 4 ++ ['-']) ++ last8.drop 4).length = 9 := by
    simp only [List.length_append, List.length_cons, List.length_nil, htk, hdr]
  have htake : ((last8.take 4 ++ ['-']) ++ last8.drop 4).take 4 = last8.take 4 := by
    rw [List.append_assoc]
    exact List.take_left' htk
  have hgd : ((last8.take 4 ++ ['-']) ++ last8.drop 4).getD 4 ' ' = '-' := by
    rw [List.append_assoc]
    rw [List.getD_eq_getElem?_getD, List.getElem?_append_right (by omega), htk]
    simp
  have hdrop : ((last8.take 4 ++ ['-']) ++ last8.drop 4).drop 5 = last8.drop 4 := by
    have h5 : (last8.take 4 ++ ['-']).length = 5 := by
      rw [List.length_append, htk]
      rfl
    rw [← h5, List.drop_left]
  simp only [hlen9, htake, hgd, hdrop]
  refine Bool.and_eq_true_iff.mpr ⟨Bool.and_eq_true_iff.mpr ⟨Bool.and_eq_true_iff.mpr ⟨rfl, ?_⟩, by decide⟩, ?_⟩
  · refine List.all_eq_true.mpr ?_
    intro c hc
    exact hdig8 c (List.mem_of_mem_take hc)
  · refine List.all_eq_true.mpr ?_
    intro c hc
    exact hdig8 c (List.mem_of_mem_drop hc)

theorem colVals_correct_phone_raw (df : DataFrame) (hWF : WF df)
    (hp : "phone" ∈ df.cols) :
    colVals (correct_issues df) "phone" =
      (colVals (prePhone df) "phone").map phone_clean := by
  unfold correct_issues cityFix
  rw [colVals_dropIssues_ne _ _ (by decide), colVals_colStep_ne _ _ _ _ (by decide)]
  unfold phoneFix
  have hp2 : "phone" ∈ (prePhone df).cols := by
    rw [cols_prePhone]
    exact hp
  exact colVals_colStep_self _ _ _ hp2 (WF_hasKey _ (WF_prePhone df hWF) _ hp2)

/-- Claim C6 counterexample: the phone value 12-34 (two then two digits) is
corrected to 0000-1234, not to the sentinel 0000-0000 the claim states. -/
theorem c6_counterexample_short_phone_padded :
    colVals (correct_issues dfPhoneShort) "phone" = [Cell.str "0000-1234"] ∧
    Cell.str "0000-1234" ≠ Cell.str "0000-0000" := by
  refine ⟨by decide, by decide⟩

/-- Claim C6 (corrected): the correction stage maps every phone cell,
including those with fewer than 8 digits, to the last 8 characters of its
zero-left-padded digit string formatted DDDD-DDDD; the sentinel branch of
the source is unreachable because padding guarantees at least 8
characters. -/
theorem c6_phone_padding_format (df : DataFrame) (hWF : WF df)
    (hp : "phone" ∈ df.cols) :
    colVals (correct_issues df) "phone" =
      (colVals (prePhone df) "phone").map
        (fun c => Cell.str (phoneFmt (padTo8 ((cellToStr c).data.filter isDigitA)))) := by
  rw [colVals_correct_phone_raw df hWF hp]
  exact List.map_congr_left (fun c _ => phone_clean_eq c)

/-- Witness for the corrected claim C6 at the two-digit phone frame. -/
theorem c6_phone_padding_format_witness :
    WF dfPhoneShort ∧ "phone" ∈ dfPhoneShort.cols ∧
    colVals (correct_issues dfPhoneShort) "phone" =
      (colVals (prePhone dfPhoneShort) "phone").map
        (fun c => Cell.str (phoneFmt (padTo8 ((cellToStr c).data.filter isDigitA)))) :=
  ⟨by decide, by decide, c6_phone_padding_format dfPhoneShort (by decide) (by decide)⟩

end DataClean

namespace DataClean

theorem mem_of_mem_guard {α : Type} {P : Prop} [Decidable P] {x : α} {l : List α}
    (h : x ∈ (if P then l else [])) : x ∈ l := by
  split at h
  · exact h
  · simp at h

theorem mem_rowTags_phone (df : DataFrame) (r : Row)
    (h : "Invalid Phone" ∈ rowTags df r) :
    phoneOk (cellToStr (rowVal r "phone")) = false := by
  unfold rowTags at h
  simp only [List.mem_append] at h
  rcases h with ((((((((h | h) | h) | h) | h) | h) | h) | h) | h)
  · split at h
    · have e := List.mem_singleton.mp h
      split at e <;> exact absurd e (by decide)
    · simp at h
  · split at h
    · have e := List.mem_singleton.mp h
      split at e
      · next hcond => simpa using hcond
      · exact absurd e (by decide)
    · simp at h
  · split at h
    · have e := List.mem_singleton.mp h
      split at e <;> exact absurd e (by decide)
    · simp at h
  · split at h
    · have e := List.mem_singleton.mp h
      split at e <;> exact absurd e (by decide)
    · simp at h
  · split at h
    · have e := List.mem_singleton.mp h
      split at e <;> exact absurd e (by decide)
    · simp at h
  · split at h
    · have e := List.mem_singleton.mp h
      split at e <;> exact absurd e (by decide)
    · simp at h
  · split at h
    · have e := List.mem_singleton.mp h
      split at e <;> exact absurd e (by decide)
    · simp at h
  · have e := List.mem_singleton.mp h
    split at e <;> exact absurd e (by decide)
  · obtain ⟨col, hcol, e⟩ := List.mem_map.mp h
    have hcol3 : col ∈ NAME_COLUMNS := List.mem_of_mem_filter hcol
    simp only [NAME_COLUMNS, List.mem_cons, List.not_mem_nil, or_false] at hcol3
    rcases hcol3 with rfl | rfl | rfl <;>
      · split at e <;> exact absurd e.symm (by decide)

end DataClean

namespace DataClean

/-- Claim C9: every phone value produced by the correction stage matches the
detection phone pattern, so no record of a corrected frame can carry the
Invalid Phone tag in the detection pass that follows. -/
theorem c9_phone_passes_detection (df : DataFrame) (hWF : WF df)
    (hp : "phone" ∈ df.cols) :
    ∀ r ∈ (correct_issues df).rows,
      "Invalid Phone" ∉ rowTags (correct_issues df) r := by
  intro r hr hmem
  have hfalse := mem_rowTags_phone _ _ hmem
  have hv : rowVal r "phone" ∈ colVals (correct_issues df) "phone" :=
    List.mem_map_of_mem (fun r => rowVal r "phone") hr
  rw [colVals_correct_phone_raw df hWF hp] at hv
  obtain ⟨c₀, _, hc₀⟩ := List.mem_map.mp hv
  rw [← hc₀, phone_clean_eq] at hfalse
  have htrue : phoneOk (phoneFmt (padTo8 ((cellToStr c₀).data.filter isDigitA))) = true := by
    refine phoneOk_phoneFmt _ (padTo8_length _) (padTo8_all_digits _ ?_)
    intro c hc
    exact List.of_mem_filter hc
  have hstr : cellToStr (Cell.str (phoneFmt (padTo8 ((cellToStr c₀).data.filter isDigitA)))) =
      phoneFmt (padTo8 ((cellToStr c₀).data.filter isDigitA)) := rfl
  rw [hstr, htrue] at hfalse
  simp at hfalse

/-- Witness for claim C9 at the two-digit phone frame. -/
theorem c9_phone_passes_detection_witness :
    WF dfPhoneShort ∧ "phone" ∈ dfPhoneShort.cols ∧
    (∀ r ∈ (correct_issues dfPhoneShort).rows,
      "Invalid Phone" ∉ rowTags (correct_issues dfPhoneShort) r) :=
  ⟨by decide, by decide, c9_phone_passes_detection dfPhoneShort (by decide) (by decide)⟩

/-- Claim C10: correction never adds a column, removes only the issues
column, and every column outside the rewritten set keeps its cell values,
up to whole rows dropped by de-duplication (a sublist of the original
column). -/
theorem c10_frame_effect (df : DataFrame) (c : String) (hc : c ∉ protectedCols) :
    (correct_issues df).cols = df.cols.filter (fun x => x ≠ "issues") ∧
    List.Sublist (colVals (correct_issues df) c) (colVals df c) := by
  have hne : ∀ k ∈ protectedCols, c ≠ k := fun k hk e => hc (e ▸ hk)
  refine ⟨cols_correct_issues df, ?_⟩
  have e1 : colVals (correct_issues df) c =
      colVals (drop_duplicates (nameStd df)) c := by
    unfold correct_issues cityFix phoneFix prePhone maritalFix genderFix
      loyaltyFix ageFix preAge preCountry countryFix
    rw [colVals_dropIssues_ne _ _ (hne "issues" (by decide)),
      colVals_colStep_ne _ _ _ _ (hne "city" (by decide)),
      colVals_colStep_ne _ _ _ _ (hne "phone" (by decide)),
      colVals_colStep_ne _ _ _ _ (hne "marital_status" (by decide)),
      colVals_colStep_ne _ _ _ _ (hne "gender" (by decide)),
      colVals_colStep_ne _ _ _ _ (hne "loyalty_points" (by decide)),
      colVals_colStep_ne _ _ _ _ (hne "age" (by decide)),
      colVals_colStep_ne _ _ _ _ (hne "country" (by decide))]
  rw [e1]
  have e2 : colVals (nameStd df) c = colVals df c :=
    colVals_nameStd_ne df c (hne "first_name" (by decide))
      (hne "last_name" (by decide)) (hne "full_name" (by decide))
  rw [← e2]
  exact List.Sublist.map (fun r => rowVal r c) (dedupAux_sublist [] (nameStd df).rows)

/-- Witness for claim C10: the email column of a one-row frame is untouched
by correction. -/
theorem c10_frame_effect_witness :
    "email" ∉ protectedCols ∧
    ((correct_issues dfEmailRow).cols = dfEmailRow.cols.filter (fun x => x ≠ "issues") ∧
      List.Sublist (colVals (correct_issues dfEmailRow) "email")
        (colVals dfEmailRow "email")) :=
  ⟨by decide, c10_frame_effect dfEmailRow "email" (by decide)⟩

end DataClean

namespace DataClean

theorem mem_insertQ (x a : ℚ) (l : List ℚ) :
    x ∈ insertQ a l ↔ x = a ∨ x ∈ l := by
  induction l with
  | nil => simp [insertQ]
  | cons y l ih =>
    unfold insertQ
    split
    · simp only [List.mem_cons, ih]
      tauto
    · simp only [List.mem_cons]

theorem mem_sortQ (x : ℚ) (l : List ℚ) : x ∈ sortQ l ↔ x ∈ l := by
  induction l with
  | nil => simp [sortQ]
  | cons y l ih =>
    unfold sortQ
    rw [mem_insertQ, ih, List.mem_cons]

theorem length_insertQ (a : ℚ) (l : List ℚ) :
    (insertQ a l).length = l.length + 1 := by
  induction l with
  | nil => rfl
  | cons y l ih =>
    unfold insertQ
    split
    · simp only [List.length_cons, ih]
    · simp only [List.length_cons]

theorem length_sortQ (l : List ℚ) : (sortQ l).length = l.length := by
  induction l with
  | nil => rfl
  | cons y l ih =>
    unfold sortQ
    rw [length_insertQ, ih, List.length_cons]

theorem pandasMedian_bounds (l : List ℚ) (a b m : ℚ)
    (h : ∀ x ∈ l, a < x ∧ x < b) (hm : pandasMedian l = some m) :
    a < m ∧ m < b := by
  unfold pandasMedian at hm
  split at hm
  · exact absurd hm (by simp)
  · next hne =>
    have hlen : 0 < l.length := Nat.pos_of_ne_zero hne
    have hslen : (sortQ l).length = l.length := length_sortQ l
    split at hm
    · rw [Option.some_inj] at hm
      have hidx : l.length / 2 < (sortQ l).length := by omega
      rw [List.getD_eq_getElem _ _ hidx] at hm
      have hmem : (sortQ l)[l.length / 2] ∈ sortQ l := List.getElem_mem hidx
      rw [mem_sortQ] at hmem
      exact hm ▸ h _ hmem
    · rw [Option.some_inj] at hm
      next hodd =>
      have h2 : 2 ≤ l.length := by omega
      have hidx1 : l.length / 2 - 1 < (sortQ l).length := by omega
      have hidx2 : l.length / 2 < (sortQ l).length := by omega
      rw [List.getD_eq_getElem _ _ hidx1, List.getD_eq_getElem _ _ hidx2] at hm
      have hm1 : (sortQ l)[l.length / 2 - 1] ∈ sortQ l := List.getElem_mem hidx1
      have hm2 : (sortQ l)[l.length / 2] ∈ sortQ l := List.getElem_mem hidx2
      rw [mem_sortQ] at hm1 hm2
      obtain ⟨ha1, hb1⟩ := h _ hm1
      obtain ⟨ha2, hb2⟩ := h _ hm2
      constructor
      · rw [← hm]
        linarith
      · rw [← hm]
        linarith

theorem pandasMedian_isSome (l : List ℚ) (hne : l ≠ []) :
    ∃ m, pandasMedian l = some m := by
  unfold pandasMedian
  rw [if_neg (by simpa using List.length_pos.mpr hne |>.ne')]
  split
  · exact ⟨_, rfl⟩
  · exact ⟨_, rfl⟩

theorem agePool_bounds (df : DataFrame) :
    ∀ x ∈ agePool df, 0 < x ∧ x < 120 := by
  intro x hx
  unfold agePool at hx
  obtain ⟨c, _, hc⟩ := List.mem_filterMap.mp hx
  cases c with
  | null => simp at hc
  | str s => simp at hc
  | num q =>
    simp only at hc
    split at hc
    · next hq =>
      rw [Option.some_inj] at hc
      exact hc ▸ hq
    · simp at hc

theorem extractGo_mem (q : String) (best : String × (Nat × Nat)) (l : List String) :
    (extractGo q best l).1 = best.1 ∨ (extractGo q best l).1 ∈ l := by
  induction l generalizing best with
  | nil => exact Or.inl rfl
  | cons c cs ih =>
    unfold extractGo
    rcases ih (if fracGt (token_sort_ratio q c) best.2 then (c, token_sort_ratio q c) else best) with h | h
    · rw [h]
      split
      · exact Or.inr (by simp)
      · exact Or.inl rfl
    · exact Or.inr (by simp [h])

theorem extractOne_mem (q m : String) (s : Nat × Nat) (l : List String)
    (h : extractOne q l = some (m, s)) : m ∈ l := by
  cases l with
  | nil => simp [extractOne] at h
  | cons c cs =>
    unfold extractOne at h
    rw [Option.some_inj] at h
    have := extractGo_mem q (c, token_sort_ratio q c) cs
    rw [h] at this
    rcases this with h0 | h0
    · have hmc : m = c := h0
      rw [hmc]
      exact List.mem_cons_self c cs
    · exact List.mem_cons_of_mem c h0

theorem match_country_mem (c : Cell) :
    match_country c = "Unknown" ∨ match_country c ∈ CANONICAL_COUNTRIES := by
  unfold match_country
  dsimp only
  split
  · exact Or.inl rfl
  · split
    · next h => exact Or.inr h
    · split
      · next m score heq =>
        split
        · exact Or.inr (extractOne_mem _ _ _ _ heq)
        · exact Or.inl rfl
      · exact Or.inl rfl

theorem match_city_mem (c : Cell) :
    match_city c = "Unknown" ∨ match_city c ∈ CANONICAL_CITIES := by
  unfold match_city
  dsimp only
  split
  · exact Or.inl rfl
  · split
    · next h => exact Or.inr h
    · split
      · next m score heq =>
        split
        · exact Or.inr (extractOne_mem _ _ _ _ heq)
        · exact Or.inl rfl
      · exact Or.inl rfl

end DataClean

namespace DataClean

theorem colVals_correct_country (df : DataFrame) (hWF : WF df)
    (hk : "country" ∈ df.cols) :
    colVals (correct_issues df) "country" =
      (colVals (preCountry df) "country").map
        (fun c => Cell.str (match_country c)) := by
  unfold correct_issues cityFix phoneFix prePhone maritalFix genderFix
    loyaltyFix ageFix preAge countryFix
  rw [colVals_dropIssues_ne _ _ (by decide),
    colVals_colStep_ne _ _ _ _ (by decide),
    colVals_colStep_ne _ _ _ _ (by decide),
    colVals_colStep_ne _ _ _ _ (by decide),
    colVals_colStep_ne _ _ _ _ (by decide),
    colVals_colStep_ne _ _ _ _ (by decide),
    colVals_colStep_ne _ _ _ _ (by decide)]
  have hc : "country" ∈ (preCountry df).cols := by
    rw [cols_preCountry]
    exact hk
  exact colVals_colStep_self _ _ _ hc (WF_hasKey _ (WF_preCountry df hWF) _ hc)

theorem colVals_correct_age (df : DataFrame) (hWF : WF df)
    (hk : "age" ∈ df.cols) :
    colVals (correct_issues df) "age" =
      (colVals (preAge df) "age").map
        (fun c => if age_out_of_range c then ageMedianCell (preAge df) else c) := by
  unfold correct_issues cityFix phoneFix prePhone maritalFix genderFix
    loyaltyFix ageFix
  rw [colVals_dropIssues_ne _ _ (by decide),
    colVals_colStep_ne _ _ _ _ (by decide),
    colVals_colStep_ne _ _ _ _ (by decide),
    colVals_colStep_ne _ _ _ _ (by decide),
    colVals_colStep_ne _ _ _ _ (by decide),
    colVals_colStep_ne _ _ _ _ (by decide)]
  have hc : "age" ∈ (preAge df).cols := by
    rw [cols_preAge]
    exact hk
  exact colVals_colStep_self _ _ _ hc (WF_hasKey _ (WF_preAge df hWF) _ hc)

theorem colVals_correct_loyalty (df : DataFrame) (hWF : WF df)
    (hk : "loyalty_points" ∈ df.cols) :
    colVals (correct_issues df) "loyalty_points" =
      (colVals (ageFix (preAge df)) "loyalty_points").map loyalty_clean := by
  unfold correct_issues cityFix phoneFix prePhone maritalFix genderFix
    loyaltyFix
  rw [colVals_dropIssues_ne _ _ (by decide),
    colVals_colStep_ne _ _ _ _ (by decide),
    colVals_colStep_ne _ _ _ _ (by decide),
    colVals_colStep_ne _ _ _ _ (by decide),
    colVals_colStep_ne _ _ _ _ (by decide)]
  have hc : "loyalty_points" ∈ (ageFix (preAge df)).cols := by
    unfold ageFix
    rw [cols_colStep, cols_preAge]
    exact hk
  have hW : WF (ageFix (preAge df)) := by
    unfold ageFix
    exact WF_colStep _ _ _ (WF_preAge df hWF)
  exact colVals_colStep_self _ _ _ hc (WF_hasKey _ hW _ hc)

theorem colVals_correct_gender (df : DataFrame) (hWF : WF df)
    (hk : "gender" ∈ df.cols) :
    colVals (correct_issues df) "gender" =
      (colVals (loyaltyFix (ageFix (preAge df))) "gender").map gender_clean := by
  unfold correct_issues cityFix phoneFix prePhone maritalFix genderFix
  rw [colVals_dropIssues_ne _ _ (by decide),
    colVals_colStep_ne _ _ _ _ (by decide),
    colVals_colStep_ne _ _ _ _ (by decide),
    colVals_colStep_ne _ _ _ _ (by decide)]
  have hc : "gender" ∈ (loyaltyFix (ageFix (preAge df))).cols := by
    unfold loyaltyFix ageFix
    rw [cols_colStep, cols_colStep, cols_preAge]
    exact hk
  have hW : WF (loyaltyFix (ageFix (preAge df))) := by
    unfold loyaltyFix ageFix
    exact WF_colStep _ _ _ (WF_colStep _ _ _ (WF_preAge df hWF))
  exact colVals_colStep_self _ _ _ hc (WF_hasKey _ hW _ hc)

theorem colVals_correct_marital (df : DataFrame) (hWF : WF df)
    (hk : "marital_status" ∈ df.cols) :
    colVals (correct_issues df) "marital_status" =
      (colVals (genderFix (loyaltyFix (ageFix (preAge df)))) "marital_status").map
        marital_clean := by
  unfold correct_issues cityFix phoneFix prePhone maritalFix
  rw [colVals_dropIssues_ne _ _ (by decide),
    colVals_colStep_ne _ _ _ _ (by decide),
    colVals_colStep_ne _ _ _ _ (by decide)]
  have hc : "marital_status" ∈ (genderFix (loyaltyFix (ageFix (preAge df)))).cols := by
    unfold genderFix loyaltyFix ageFix
    rw [cols_colStep, cols_colStep, cols_colStep, cols_preAge]
    exact hk
  have hW : WF (genderFix (loyaltyFix (ageFix (preAge df)))) := by
    unfold genderFix loyaltyFix ageFix
    exact WF_colStep _ _ _ (WF_colStep _ _ _ (WF_colStep _ _ _ (WF_preAge df hWF)))
  exact colVals_colStep_self _ _ _ hc (WF_hasKey _ hW _ hc)

theorem colVals_correct_city (df : DataFrame) (hWF : WF df)
    (hk : "city" ∈ df.cols) :
    colVals (correct_issues df) "city" =
      (colVals (phoneFix (prePhone df)) "city").map
        (fun c => Cell.str (match_city c)) := by
  unfold correct_issues cityFix
  rw [colVals_dropIssues_ne _ _ (by decide)]
  have hc : "city" ∈ (phoneFix (prePhone df)).cols := by
    unfold phoneFix
    rw [cols_colStep, cols_prePhone]
    exact hk
  have hW : WF (phoneFix (prePhone df)) := by
    unfold phoneFix
    exact WF_colStep _ _ _ (WF_prePhone df hWF)
  exact colVals_colStep_self _ _ _ hc (WF_hasKey _ hW _ hc)

theorem gender_clean_mem (w : Cell) :
    gender_clean w ∈ [Cell.str "Male", Cell.str "Female", Cell.str "Other"] := by
  cases w with
  | null => simp [gender_clean]
  | num q => simp [gender_clean]
  | str s =>
    unfold gender_clean
    dsimp only
    by_cases h : s ∈ GENDERS
    · rw [if_pos h]
      simp only [GENDERS, List.mem_cons, List.not_mem_nil, or_false] at h
      rcases h with rfl | rfl | rfl <;> simp
    · rw [if_neg h]
      simp

theorem marital_clean_mem (w : Cell) :
    marital_clean w ∈ [Cell.str "Single", Cell.str "Married",
      Cell.str "Divorced", Cell.str "Widowed"] := by
  cases w with
  | null => simp [marital_clean]
  | num q => simp [marital_clean]
  | str s =>
    unfold marital_clean
    dsimp only
    by_cases h : s ∈ MARITAL_STATUSES
    · rw [if_pos h]
      simp only [MARITAL_STATUSES, List.mem_cons, List.not_mem_nil, or_false] at h
      rcases h with rfl | rfl | rfl | rfl <;> simp
    · rw [if_neg h]
      simp

theorem loyalty_clean_nonneg (w : Cell) :
    ∃ q : ℚ, loyalty_clean w = Cell.num q ∧ 0 ≤ q := by
  cases w with
  | null => exact ⟨0, rfl, le_refl 0⟩
  | str s => exact ⟨0, rfl, le_refl 0⟩
  | num q =>
    unfold loyalty_clean
    dsimp only
    by_cases h : q < 0
    · rw [if_pos h]
      exact ⟨0, rfl, le_refl 0⟩
    · rw [if_neg h]
      exact ⟨q, rfl, le_of_not_lt h⟩

theorem ageMedianCell_bounds (d : DataFrame) (hne : agePool d ≠ []) :
    ∃ m : ℚ, ageMedianCell d = Cell.num m ∧ 0 < m ∧ m < 120 := by
  obtain ⟨m, hm⟩ := pandasMedian_isSome (agePool d) hne
  refine ⟨m, ?_, pandasMedian_bounds _ 0 120 m (agePool_bounds d) hm⟩
  unfold ageMedianCell
  rw [hm]

end DataClean

namespace DataClean

/-- Claim C7 counterexample: when no age of the dataset is numeric and
strictly between 0 and 120, the median is NaN and correction writes NaN
into the age column, so the corrected age does not lie in (0, 120]. -/
theorem c7_counterexample_empty_pool_nan_age :
    colVals (correct_issues dfAgeNeg) "age" = [Cell.null] ∧
    ¬∃ q : ℚ, Cell.null = Cell.num q ∧ 0 < q ∧ q ≤ 120 := by
  refine ⟨by decide, ?_⟩
  rintro ⟨q, h, -⟩
  cases h

/-- Claim C7 (corrected): after correction, whenever the respective column
is present, country and city are Unknown or a vocabulary member, gender
and marital status lie in their valid sets, and loyalty points are
non-negative numbers, all unconditionally; ages lie in (0, 120] provided
at least one plausible age (numeric, strictly between 0 and 120) exists
in the deduplicated name-standardized frame, and without that proviso
the age conjunct fails (see the counterexample). -/
theorem c7_canonicalization_invariant (df : DataFrame) (hWF : WF df) :
    ∀ r ∈ (correct_issues df).rows,
      ("country" ∈ df.cols →
        rowVal r "country" = Cell.str "Unknown" ∨
        ∃ v ∈ CANONICAL_COUNTRIES, rowVal r "country" = Cell.str v) ∧
      ("city" ∈ df.cols →
        rowVal r "city" = Cell.str "Unknown" ∨
        ∃ v ∈ CANONICAL_CITIES, rowVal r "city" = Cell.str v) ∧
      ("gender" ∈ df.cols →
        rowVal r "gender" ∈ [Cell.str "Male", Cell.str "Female", Cell.str "Other"]) ∧
      ("marital_status" ∈ df.cols →
        rowVal r "marital_status" ∈ [Cell.str "Single", Cell.str "Married",
          Cell.str "Divorced", Cell.str "Widowed"]) ∧
      ("age" ∈ df.cols → agePool (preAge df) ≠ [] →
        ∃ q : ℚ, rowVal r "age" = Cell.num q ∧ 0 < q ∧ q ≤ 120) ∧
      ("loyalty_points" ∈ df.cols →
        ∃ q : ℚ, rowVal r "loyalty_points" = Cell.num q ∧ 0 ≤ q) := by
  intro r hr
  refine ⟨?_, ?_, ?_, ?_, ?_, ?_⟩
  · intro hk
    have hv : rowVal r "country" ∈ colVals (correct_issues df) "country" :=
      List.mem_map_of_mem _ hr
    rw [colVals_correct_country df hWF hk] at hv
    obtain ⟨w, _, hw⟩ := List.mem_map.mp hv
    rcases match_country_mem w with h | h
    · exact Or.inl (by rw [← hw, h])
    · exact Or.inr ⟨match_country w, h, hw.symm⟩
  · intro hk
    have hv : rowVal r "city" ∈ colVals (correct_issues df) "city" :=
      List.mem_map_of_mem _ hr
    rw [colVals_correct_city df hWF hk] at hv
    obtain ⟨w, _, hw⟩ := List.mem_map.mp hv
    rcases match_city_mem w with h | h
    · exact Or.inl (by rw [← hw, h])
    · exact Or.inr ⟨match_city w, h, hw.symm⟩
  · intro hk
    have hv : rowVal r "gender" ∈ colVals (correct_issues df) "gender" :=
      List.mem_map_of_mem _ hr
    rw [colVals_correct_gender df hWF hk] at hv
    obtain ⟨w, _, hw⟩ := List.mem_map.mp hv
    rw [← hw]
    exact gender_clean_mem w
  · intro hk
    have hv : rowVal r "marital_status" ∈ colVals (correct_issues df) "marital_status" :=
      List.mem_map_of_mem _ hr
    rw [colVals_correct_marital df hWF hk] at hv
    obtain ⟨w, _, hw⟩ := List.mem_map.mp hv
    rw [← hw]
    exact marital_clean_mem w
  · intro hk hpool
    have hv : rowVal r "age" ∈ colVals (correct_issues df) "age" :=
      List.mem_map_of_mem _ hr
    rw [colVals_correct_age df hWF hk] at hv
    obtain ⟨w, _, hw⟩ := List.mem_map.mp hv
    by_cases himp : age_out_of_range w = true
    · rw [if_pos himp] at hw
      obtain ⟨m, hm, h0, h120⟩ := ageMedianCell_bounds (preAge df) hpool
      exact ⟨m, by rw [← hw, hm], h0, le_of_lt h120⟩
    · rw [if_neg himp] at hw
      cases w with
      | null => exact absurd rfl himp
      | str s => exact absurd rfl himp
      | num q =>
        simp only [age_out_of_range, Bool.or_eq_true, decide_eq_true_eq, not_or] at himp
        exact ⟨q, hw.symm, lt_of_not_le himp.1, le_of_not_lt himp.2⟩
  · intro hk
    have hv : rowVal r "loyalty_points" ∈ colVals (correct_issues df) "loyalty_points" :=
      List.mem_map_of_mem _ hr
    rw [colVals_correct_loyalty df hWF hk] at hv
    obtain ⟨w, _, hw⟩ := List.mem_map.mp hv
    obtain ⟨q, hq, h0⟩ := loyalty_clean_nonneg w
    exact ⟨q, by rw [← hw, hq], h0⟩

end DataClean

namespace DataClean

/-- Witness for the corrected claim C7 at a one-row frame with one
plausible age; the age antecedents hold there, so the age conclusion is
not vacuous. -/
theorem c7_canonicalization_invariant_witness :
    WF dfAge30 ∧ "age" ∈ dfAge30.cols ∧ agePool (preAge dfAge30) ≠ [] ∧
    (∀ r ∈ (correct_issues dfAge30).rows,
      ("country" ∈ dfAge30.cols →
        rowVal r "country" = Cell.str "Unknown" ∨
        ∃ v ∈ CANONICAL_COUNTRIES, rowVal r "country" = Cell.str v) ∧
      ("city" ∈ dfAge30.cols →
        rowVal r "city" = Cell.str "Unknown" ∨
        ∃ v ∈ CANONICAL_CITIES, rowVal r "city" = Cell.str v) ∧
      ("gender" ∈ dfAge30.cols →
        rowVal r "gender" ∈ [Cell.str "Male", Cell.str "Female", Cell.str "Other"]) ∧
      ("marital_status" ∈ dfAge30.cols →
        rowVal r "marital_status" ∈ [Cell.str "Single", Cell.str "Married",
          Cell.str "Divorced", Cell.str "Widowed"]) ∧
      ("age" ∈ dfAge30.cols → agePool (preAge dfAge30) ≠ [] →
        ∃ q : ℚ, rowVal r "age" = Cell.num q ∧ 0 < q ∧ q ≤ 120) ∧
      ("loyalty_points" ∈ dfAge30.cols →
        ∃ q : ℚ, rowVal r "loyalty_points" = Cell.num q ∧ 0 ≤ q)) :=
  ⟨by decide, by decide, by decide,
    c7_canonicalization_invariant dfAge30 (by decide)⟩

/-- Claim C8 counterexample: with ages 30, 120 and -5 the source median
pool is the strictly-open interval pool, here just the singleton 30, so
the implausible age -5 becomes 30; the pool the claim states (numeric ages
in the half-open interval (0, 120], here 30 and 120) has median 75, a
different replacement. -/
theorem c8_counterexample_median_pool_excludes_120 :
    colVals (correct_issues dfAge120) "age" =
      [Cell.num 30, Cell.num 120, Cell.num 30] ∧
    pandasMedian (specAgePool dfAge120) = some 75 ∧
    (Cell.num 30 : Cell) ≠ Cell.num 75 := by
  refine ⟨by decide, ?_, by decide⟩
  have h1 : specAgePool dfAge120 = [30, 120] := by decide
  have h2 : sortQ [(30 : ℚ), 120] = [30, 120] := by decide
  rw [h1]
  simp only [pandasMedian, h2]
  norm_num

/-- Claim C8 (corrected): when correction fixes the age column, every
null, non-numeric, non-positive, or above-120 age of the deduplicated,
name-standardized frame is replaced by the pandas median of exactly those
ages that are numeric and lie strictly between 0 and 120 (the value 120
itself is kept but excluded from the median pool), and all other ages are
kept. -/
theorem c8_age_median_replacement (df : DataFrame) (hWF : WF df)
    (hk : "age" ∈ df.cols) :
    colVals (correct_issues df) "age" =
      (colVals (preAge df) "age").map
        (fun c => if age_out_of_range c then ageMedianCell (preAge df) else c) :=
  colVals_correct_age df hWF hk

/-- Witness for the corrected claim C8 at the spec scenario frame with
ages -5, 30, 40 and 50: the implausible age becomes the pool median 40. -/
theorem c8_age_median_replacement_witness :
    WF dfAgeScenario ∧ "age" ∈ dfAgeScenario.cols ∧
    (colVals (correct_issues dfAgeScenario) "age" =
      (colVals (preAge dfAgeScenario) "age").map
        (fun c => if age_out_of_range c then ageMedianCell (preAge dfAgeScenario) else c)) ∧
    colVals (correct_issues dfAgeScenario) "age" =
      [Cell.num 40, Cell.num 30, Cell.num 40, Cell.num 50] :=
  ⟨by decide, by decide,
    c8_age_median_replacement dfAgeScenario (by decide) (by decide), by decide⟩

end DataClean

namespace DataClean

theorem match_country_vocab_fixed :
    ∀ v ∈ CANONICAL_COUNTRIES, v ≠ "UAE" → match_country (Cell.str v) = v := by
  decide

theorem match_city_vocab_fixed :
    ∀ v ∈ CANONICAL_CITIES, match_city (Cell.str v) = v := by
  decide

theorem match_country_unknown : match_country (Cell.str "Unknown") = "Unknown" := by
  decide

theorem match_city_unknown : match_city (Cell.str "Unknown") = "Unknown" := by
  decide

/-- Claim C5 counterexample: the vocabulary entry UAE is not preserved by
the country correction. Its title-cased form Uae misses the exact-match
branch, the fuzzy matcher is consulted, no score beats the threshold, and
the cell becomes Unknown. -/
theorem c5_counterexample_uae_not_preserved :
    "UAE" ∈ CANONICAL_COUNTRIES ∧
    match_country (Cell.str "UAE") = "Unknown" ∧
    ("Unknown" : String) ≠ "UAE" := by
  refine ⟨by decide, by decide, by decide⟩

/-- Claim C5 (corrected): a country cell already equal to a vocabulary
entry is left unchanged without consulting the matcher only when the entry
is invariant under strip and title-casing (true for all entries except UAE
and Trinidad and Tobago, and UAE is genuinely changed); and every country
value the matcher accepts is a vocabulary member, so any value produced by
fuzzy correction to a canonical form passes the exact-match detection rule
afterward. -/
theorem c5_canonical_pass_through :
    (∀ v ∈ CANONICAL_COUNTRIES, pyTitle (pyStrip v) = v →
      match_country (Cell.str v) = v) ∧
    (∀ c : Cell, match_country c ≠ "Unknown" →
      match_country c ∈ CANONICAL_COUNTRIES) := by
  constructor
  · intro v hv hfix
    have hall : ∀ w ∈ CANONICAL_COUNTRIES, w ≠ "" ∧ w ≠ "Unknown" := by decide
    have hnb := hall v hv
    unfold match_country
    dsimp only [cellToStr]
    rw [hfix]
    rw [if_neg (by simp [isNullCell, hnb.1, hnb.2]), if_pos hv]
  · intro c h
    rcases match_country_mem c with h0 | h0
    · exact absurd h0 h
    · exact h0

/-- Witness for the corrected claim C5 at the entry India, which is
invariant under strip and title-casing. -/
theorem c5_canonical_pass_through_witness :
    "India" ∈ CANONICAL_COUNTRIES ∧ pyTitle (pyStrip "India") = "India" ∧
    match_country (Cell.str "India") = "India" :=
  ⟨by decide, by decide, c5_canonical_pass_through.1 "India" (by decide) (by decide)⟩

end DataClean

namespace DataClean

theorem colStep_not_mem (d : DataFrame) (k : String) (f : Cell → Cell)
    (h : k ∉ d.cols) : colStep d k f = d := by
  unfold colStep
  rw [if_neg h]

theorem dropIssues_eq_self (d : DataFrame) (h : "issues" ∉ d.cols) :
    dropIssues d = d := by
  unfold dropIssues
  rw [if_neg h]

theorem drop_duplicates_eq_self (d : DataFrame) (h : d.rows.Nodup) :
    drop_duplicates d = d := by
  unfold drop_duplicates
  rw [dedupAux_eq_self [] d.rows h (by simp)]

theorem colVals_dedup_subset (d : DataFrame) (k : String) :
    ∀ v ∈ colVals (drop_duplicates d) k, v ∈ colVals d k := by
  intro v hv
  unfold drop_duplicates colVals at hv
  unfold colVals
  simp only [List.mem_map] at hv ⊢
  obtain ⟨r, hr, rfl⟩ := hv
  exact ⟨r, (dedupAux_sublist [] d.rows).subset hr, rfl⟩

theorem gender_clean_idem (w : Cell) :
    gender_clean (gender_clean w) = gender_clean w := by
  have h := gender_clean_mem w
  have hall : ∀ v ∈ [Cell.str "Male", Cell.str "Female", Cell.str "Other"],
      gender_clean v = v := by decide
  exact hall _ h

theorem marital_clean_idem (w : Cell) :
    marital_clean (marital_clean w) = marital_clean w := by
  have h := marital_clean_mem w
  have hall : ∀ v ∈ [Cell.str "Single", Cell.str "Married", Cell.str "Divorced",
      Cell.str "Widowed"], marital_clean v = v := by decide
  exact hall _ h

theorem loyalty_clean_idem (w : Cell) :
    loyalty_clean (loyalty_clean w) = loyalty_clean w := by
  obtain ⟨q, hq, h0⟩ := loyalty_clean_nonneg w
  rw [hq]
  unfold loyalty_clean
  dsimp only
  rw [if_neg (not_lt.mpr h0)]

theorem match_country_fixed_of_ne_uae (u : String)
    (hu : u = "Unknown" ∨ u ∈ CANONICAL_COUNTRIES) (hne : u ≠ "UAE") :
    match_country (Cell.str u) = u := by
  rcases hu with rfl | hmem
  · exact match_country_unknown
  · exact match_country_vocab_fixed u hmem hne

theorem match_city_fixed (u : String)
    (hu : u = "Unknown" ∨ u ∈ CANONICAL_CITIES) :
    match_city (Cell.str u) = u := by
  rcases hu with rfl | hmem
  · exact match_city_unknown
  · exact match_city_vocab_fixed u hmem

theorem phoneFmt_fixed (l : List Char) (hd : ∀ c ∈ l, isDigitA c = true) :
    phone_clean (Cell.str (phoneFmt (padTo8 l))) =
      Cell.str (phoneFmt (padTo8 l)) := by
  rw [phone_clean_eq]
  set d := padTo8 l with hdl
  have hlen : 8 ≤ d.length := padTo8_length l
  have hdig : ∀ c ∈ d, isDigitA c = true := padTo8_all_digits l hd
  set last8 := d.drop (d.length - 8) with hlast8
  have h8 : last8.length = 8 := by
    rw [hlast8, List.length_drop]
    omega
  have hdig8 : ∀ c ∈ last8, isDigitA c = true :=
    fun c hc => hdig c (List.mem_of_mem_drop hc)
  have hdata : (cellToStr (Cell.str (phoneFmt d))).data =
      last8.take 4 ++ '-' :: last8.drop 4 := rfl
  have hfilter : (last8.take 4 ++ '-' :: last8.drop 4).filter isDigitA = last8 := by
    rw [List.filter_append, List.filter_cons_of_neg (by decide)]
    rw [List.filter_eq_self.mpr (fun c hc => hdig8 c (List.mem_of_mem_take hc)),
      List.filter_eq_self.mpr (fun c hc => hdig8 c (List.mem_of_mem_drop hc)),
      List.take_append_drop]
  have hpad : padTo8 last8 = last8 := by
    unfold padTo8
    rw [if_neg (by omega)]
  rw [hdata, hfilter, hpad]
  have hfmt : phoneFmt last8 = phoneFmt d := by
    unfold phoneFmt
    rw [h8]
    simp only [Nat.sub_self, List.drop_zero]
  rw [hfmt]

theorem phone_clean_idem (w : Cell) :
    phone_clean (phone_clean w) = phone_clean w := by
  rw [phone_clean_eq w]
  exact phoneFmt_fixed _ (fun c hc => List.of_mem_filter hc)

theorem colVals_nameStd_name_mem (df : DataFrame) (hWF : WF df) (k : String)
    (hk3 : k ∈ NAME_COLUMNS) (hk : k ∈ df.cols) :
    ∀ v ∈ colVals (nameStd df) k, ∃ w, v = name_clean w := by
  simp only [NAME_COLUMNS, List.mem_cons, List.not_mem_nil, or_false] at hk3
  rcases hk3 with rfl | rfl | rfl
  · intro v hv
    rw [nameStd_eq df, colVals_colStep_ne _ _ _ _ (by decide),
      colVals_colStep_ne _ _ _ _ (by decide),
      colVals_colStep_self _ _ _ hk (WF_hasKey df hWF _ hk)] at hv
    obtain ⟨w, _, hw⟩ := List.mem_map.mp hv
    exact ⟨w, hw.symm⟩
  · intro v hv
    have hc2 : "last_name" ∈ (colStep df "first_name" name_clean).cols := by
      rw [cols_colStep]
      exact hk
    rw [nameStd_eq df, colVals_colStep_ne _ _ _ _ (by decide),
      colVals_colStep_self _ _ _ hc2
        (WF_hasKey _ (WF_colStep _ _ _ hWF) _ hc2)] at hv
    obtain ⟨w, _, hw⟩ := List.mem_map.mp hv
    exact ⟨w, hw.symm⟩
  · intro v hv
    have hc3 : "full_name" ∈
        (colStep (colStep df "first_name" name_clean) "last_name" name_clean).cols := by
      rw [cols_colStep, cols_colStep]
      exact hk
    rw [nameStd_eq df,
      colVals_colStep_self _ _ _ hc3
        (WF_hasKey _ (WF_colStep _ _ _ (WF_colStep _ _ _ hWF)) _ hc3)] at hv
    obtain ⟨w, _, hw⟩ := List.mem_map.mp hv
    exact ⟨w, hw.symm⟩

end DataClean

namespace DataClean

theorem correct_name_val_mem (df : DataFrame) (hWF : WF df) (k : String)
    (hk3 : k ∈ NAME_COLUMNS) (hk : k ∈ df.cols) :
    ∀ v ∈ colVals (correct_issues df) k, ∃ w, v = name_clean w := by
  intro v hv
  have hne : k ≠ "issues" ∧ k ≠ "city" ∧ k ≠ "phone" ∧ k ≠ "marital_status" ∧
      k ≠ "gender" ∧ k ≠ "loyalty_points" ∧ k ≠ "age" ∧ k ≠ "country" := by
    simp only [NAME_COLUMNS, List.mem_cons, List.not_mem_nil, or_false] at hk3
    rcases hk3 with rfl | rfl | rfl <;>
      exact ⟨by decide, by decide, by decide, by decide, by decide, by decide,
        by decide, by decide⟩
  obtain ⟨h1, h2, h3, h4, h5, h6, h7, h8⟩ := hne
  unfold correct_issues cityFix phoneFix prePhone maritalFix genderFix
    loyaltyFix ageFix preAge preCountry countryFix at hv
  rw [colVals_dropIssues_ne _ _ h1, colVals_colStep_ne _ _ _ _ h2,
    colVals_colStep_ne _ _ _ _ h3, colVals_colStep_ne _ _ _ _ h4,
    colVals_colStep_ne _ _ _ _ h5, colVals_colStep_ne _ _ _ _ h6,
    colVals_colStep_ne _ _ _ _ h7, colVals_colStep_ne _ _ _ _ h8] at hv
  exact colVals_nameStd_name_mem df hWF k hk3 hk v (colVals_dedup_subset _ _ v hv)

/-- Claim C4 counterexample: on two rows with distinct invalid genders,
correction maps both genders to Other without deduplicating them (they
differ at deduplication time), so a second correction run drops one of the
now-identical rows and the result differs from a single run. -/
theorem c4_counterexample_second_run_drops_rows :
    correct_issues (correct_issues dfGenderXY) ≠ correct_issues dfGenderXY := by
  decide

/-- Claim C4 (corrected): correction is idempotent on a dataset provided
the first pass leaves no two fully identical rows (value normalization can
create new duplicates that only a second pass would drop) and leaves no
country cell equal to UAE (the one vocabulary entry a second pass maps to
Unknown). -/
theorem c4_correction_idempotent_conditional (df : DataFrame) (hWF : WF df)
    (h1 : (correct_issues df).rows.Nodup)
    (h2 : ∀ r ∈ (correct_issues df).rows, rowVal r "country" ≠ Cell.str "UAE") :
    correct_issues (correct_issues df) = correct_issues df := by
  set D := correct_issues df with hD
  have hguard : ∀ k, k ∉ df.cols → k ∉ D.cols := by
    intro k hk hmem
    rw [hD, cols_correct_issues] at hmem
    exact hk (List.mem_of_mem_filter hmem)
  have hnameStep : ∀ k ∈ NAME_COLUMNS, colStep D k name_clean = D := by
    intro k hk3
    by_cases hk : k ∈ df.cols
    · refine colStep_eq_self D k name_clean ?_
      intro r hr _
      have hv : rowVal r k ∈ colVals D k :=
        List.mem_map_of_mem (fun r => rowVal r k) hr
      rw [hD] at hv
      obtain ⟨w, hw⟩ := correct_name_val_mem df hWF k hk3 hk _ hv
      rw [hw, name_clean_idem]
    · exact colStep_not_mem _ _ _ (hguard k hk)
  have hnm : nameStd D = D := by
    rw [nameStd_eq D, hnameStep "first_name" (by decide),
      hnameStep "last_name" (by decide), hnameStep "full_name" (by decide)]
  have hdd : drop_duplicates D = D := drop_duplicates_eq_self D h1
  have hcountry : countryFix D = D := by
    by_cases hk : "country" ∈ df.cols
    · unfold countryFix
      refine colStep_eq_self _ _ _ ?_
      intro r hr _
      show Cell.str (match_country (rowVal r "country")) = rowVal r "country"
      have hv : rowVal r "country" ∈ colVals D "country" :=
        List.mem_map_of_mem (fun r => rowVal r "country") hr
      rw [hD, colVals_correct_country df hWF hk] at hv
      obtain ⟨w, _, hwraw⟩ := List.mem_map.mp hv
      have hw : Cell.str (match_country w) = rowVal r "country" := hwraw
      have hneq : match_country w ≠ "UAE" := by
        intro e
        refine h2 r hr ?_
        rw [← hw, e]
      rw [← hw, match_country_fixed_of_ne_uae (match_country w)
        (match_country_mem w) hneq]
    · unfold countryFix
      exact colStep_not_mem _ _ _ (hguard _ hk)
  have hage : ageFix D = D := by
    by_cases hk : "age" ∈ df.cols
    · unfold ageFix
      refine colStep_eq_self _ _ _ ?_
      intro r hr _
      show (if age_out_of_range (rowVal r "age") then ageMedianCell D
        else rowVal r "age") = rowVal r "age"
      have hv : rowVal r "age" ∈ colVals D "age" :=
        List.mem_map_of_mem (fun r => rowVal r "age") hr
      rw [hD, colVals_correct_age df hWF hk] at hv
      obtain ⟨w, hwP, hwraw⟩ := List.mem_map.mp hv
      have hw : (if age_out_of_range w then ageMedianCell (preAge df) else w) =
          rowVal r "age" := hwraw
      by_cases hpool : agePool (preAge df) = []
      · have hmed1 : ageMedianCell (preAge df) = Cell.null := by
          unfold ageMedianCell
          rw [hpool]
          rfl
        have hpool2 : agePool D = [] := by
          unfold agePool
          refine List.filterMap_eq_nil.mpr ?_
          intro v hvv
          rw [hD, colVals_correct_age df hWF hk] at hvv
          obtain ⟨w2, hw2P, hw2raw⟩ := List.mem_map.mp hvv
          have hw2 : (if age_out_of_range w2 then ageMedianCell (preAge df) else w2) =
              v := hw2raw
          by_cases himp2 : age_out_of_range w2 = true
          · rw [if_pos himp2, hmed1] at hw2
            rw [← hw2]
          · rw [if_neg himp2] at hw2
            rw [← hw2]
            exact List.filterMap_eq_nil.mp hpool w2 hw2P
        have hmed2 : ageMedianCell D = Cell.null := by
          unfold ageMedianCell
          rw [hpool2]
          rfl
        by_cases himp : age_out_of_range w = true
        · rw [if_pos himp, hmed1] at hw
          rw [← hw, if_pos (by rfl), hmed2]
        · rw [if_neg himp] at hw
          rw [← hw, if_neg himp]
      · obtain ⟨m, hm, hm0, hm120⟩ := ageMedianCell_bounds (preAge df) hpool
        by_cases himp : age_out_of_range w = true
        · rw [if_pos himp, hm] at hw
          rw [← hw, if_neg (by
            simp only [age_out_of_range, Bool.or_eq_true, decide_eq_true_eq, not_or]
            exact ⟨not_le.mpr hm0, not_lt.mpr (le_of_lt hm120)⟩)]
        · rw [if_neg himp] at hw
          rw [← hw, if_neg himp]
    · unfold ageFix
      exact colStep_not_mem _ _ _ (hguard _ hk)
  have hloyal : loyaltyFix D = D := by
    by_cases hk : "loyalty_points" ∈ df.cols
    · unfold loyaltyFix
      refine colStep_eq_self _ _ _ ?_
      intro r hr _
      have hv : rowVal r "loyalty_points" ∈ colVals D "loyalty_points" :=
        List.mem_map_of_mem (fun r => rowVal r "loyalty_points") hr
      rw [hD, colVals_correct_loyalty df hWF hk] at hv
      obtain ⟨w, _, hw⟩ := List.mem_map.mp hv
      rw [← hw, loyalty_clean_idem]
    · unfold loyaltyFix
      exact colStep_not_mem _ _ _ (hguard _ hk)
  have hgender : genderFix D = D := by
    by_cases hk : "gender" ∈ df.cols
    · unfold genderFix
      refine colStep_eq_self _ _ _ ?_
      intro r hr _
      have hv : rowVal r "gender" ∈ colVals D "gender" :=
        List.mem_map_of_mem (fun r => rowVal r "gender") hr
      rw [hD, colVals_correct_gender df hWF hk] at hv
      obtain ⟨w, _, hw⟩ := List.mem_map.mp hv
      rw [← hw, gender_clean_idem]
    · unfold genderFix
      exact colStep_not_mem _ _ _ (hguard _ hk)
  have hmarital : maritalFix D = D := by
    by_cases hk : "marital_status" ∈ df.cols
    · unfold maritalFix
      refine colStep_eq_self _ _ _ ?_
      intro r hr _
      have hv : rowVal r "marital_status" ∈ colVals D "marital_status" :=
        List.mem_map_of_mem (fun r => rowVal r "marital_status") hr
      rw [hD, colVals_correct_marital df hWF hk] at hv
      obtain ⟨w, _, hw⟩ := List.mem_map.mp hv
      rw [← hw, marital_clean_idem]
    · unfold maritalFix
      exact colStep_not_mem _ _ _ (hguard _ hk)
  have hphone : phoneFix D = D := by
    by_cases hk : "phone" ∈ df.cols
    · unfold phoneFix
      refine colStep_eq_self _ _ _ ?_
      intro r hr _
      have hv : rowVal r "phone" ∈ colVals D "phone" :=
        List.mem_map_of_mem (fun r => rowVal r "phone") hr
      rw [hD, colVals_correct_phone_raw df hWF hk] at hv
      obtain ⟨w, _, hw⟩ := List.mem_map.mp hv
      rw [← hw, phone_clean_idem]
    · unfold phoneFix
      exact colStep_not_mem _ _ _ (hguard _ hk)
  have hcity : cityFix D = D := by
    by_cases hk : "city" ∈ df.cols
    · unfold cityFix
      refine colStep_eq_self _ _ _ ?_
      intro r hr _
      show Cell.str (match_city (rowVal r "city")) = rowVal r "city"
      have hv : rowVal r "city" ∈ colVals D "city" :=
        List.mem_map_of_mem (fun r => rowVal r "city") hr
      rw [hD, colVals_correct_city df hWF hk] at hv
      obtain ⟨w, _, hwraw⟩ := List.mem_map.mp hv
      have hw : Cell.str (match_city w) = rowVal r "city" := hwraw
      rw [← hw, match_city_fixed (match_city w) (match_city_mem w)]
    · unfold cityFix
      exact colStep_not_mem _ _ _ (hguard _ hk)
  have hdropI : dropIssues D = D := by
    refine dropIssues_eq_self D ?_
    rw [hD]
    exact correct_issues_no_issues_col df
  show correct_issues D = D
  unfold correct_issues prePhone preAge preCountry
  rw [hnm, hdd, hcountry, hage, hloyal, hgender, hmarital, hphone, hcity, hdropI]

/-- Witness for the corrected claim C4 at a clean one-row frame. -/
theorem c4_correction_idempotent_conditional_witness :
    WF dfGenderMale ∧ (correct_issues dfGenderMale).rows.Nodup ∧
    (∀ r ∈ (correct_issues dfGenderMale).rows,
      rowVal r "country" ≠ Cell.str "UAE") ∧
    correct_issues (correct_issues dfGenderMale) = correct_issues dfGenderMale :=
  ⟨by decide, by decide, by decide,
    c4_correction_idempotent_conditional dfGenderMale (by decide) (by decide)
      (by decide)⟩

end DataClean
